import Mathlib

/-!
Verification of the special checkers of flatpak-external-data-checker
(`src/specialcheckers/runtimechecker.py`, `src/specialcheckers/submodulechecker.py`,
`src/lib/specialcheckers.py`) through a shallow embedding in Lean 4.

Modelling conventions, used throughout:

* A Python value that may be `None` or a string is embedded as `Option String`
  (abbreviated `PyStr`); `none` is Python `None`, `some s` a string.
* Python truthiness of such a value is `pyTruthy` (`None` and `""` are falsy).
* Python dicts are embedded as insertion-ordered association lists; assignment
  `d[k] = v` is `dictInsert`, which overwrites in place or appends.
* Uncaught Python exceptions (`AssertionError`, `TypeError` on `None`,
  `IndexError` on list/str indexing) are embedded as the `none` value of an
  `Option` result monad: `f ... = some r` means the Python call completed and
  returned `r`; `none` means it raised (or, for the fuelled recursion of
  `get_freedesktop_target`, did not terminate within the given fuel).
* Results of subprocesses are inputs of the embedding (an `Env`): the flathub
  catalog listing (`flatpak remote-ls` lines), the per-ref metadata blocks
  (`flatpak remote-info`), and the current git branch (`git branch
  --show-current`, `none` when the command fails).
-/

/-- Python string-or-None value. -/
abbrev PyStr := Option String

/-- Python truthiness of a string-or-None value: `None` and `""` are falsy. -/
def pyTruthy : PyStr → Bool
  | none => false
  | some s => s ≠ ""

/-- Characterwise prefix test (helper for the substring test below). -/
def charPrefix : List Char → List Char → Bool
  | [], _ => true
  | _ :: _, [] => false
  | a :: as2, b :: bs => a = b && charPrefix as2 bs

/-- Characterwise infix test (helper for the substring test below). -/
def charInfix (sub : List Char) : List Char → Bool
  | [] => charPrefix sub []
  | b :: bs => charPrefix sub (b :: bs) || charInfix sub bs

/-- Python `sub in s` substring test (`str.__contains__`). -/
def pyIn (sub s : String) : Bool :=
  charInfix sub.data s.data

/-- Python `s.split(sep)` for a single-character separator, characterwise
(`"".split(sep)` is `[""]`, like Python). -/
def splitCharsAux (sep : Char) : List Char → List Char → List (List Char)
  | [], acc => [acc.reverse]
  | c :: cs, acc =>
    if c = sep then acc.reverse :: splitCharsAux sep cs []
    else splitCharsAux sep cs (c :: acc)

/-- Python `s.split(sep)` for a single-character separator (all separators
the checkers split on are single characters). -/
def pySplitChar (sep : Char) (s : String) : List String :=
  (splitCharsAux sep s.data []).map (fun l => String.mk l)

/-- Python slice `s[:n]`. -/
def pyTake (s : String) (n : Nat) : String := String.mk (s.data.take n)

/-- Python slice `s[n:]`. -/
def pyDrop (s : String) (n : Nat) : String := String.mk (s.data.drop n)

/-- Python `s.replace(" ", "")`. -/
def stripSpaces (s : String) : String :=
  String.mk (s.data.filter (fun c => c ≠ ' '))

/-- Python `sep.join(l)` (used for `".".join(split)`). -/
def joinWith (sep : String) : List String → String
  | [] => ""
  | [c] => c
  | c :: rest => c ++ sep ++ joinWith sep rest

/-- Python dict assignment `d[k] = v` on an insertion-ordered association
list: overwrite in place if the key exists, else append. -/
def dictInsert {α : Type} (k : String) (v : α) : List (String × α) → List (String × α)
  | [] => [(k, v)]
  | (k', v') :: rest =>
    if k' = k then (k, v) :: rest else (k', v') :: dictInsert k v rest

/-- Python dict lookup `d.get(k)` / `k in d`. -/
def dictGet? {α : Type} : List (String × α) → String → Option α
  | [], _ => none
  | (k', v) :: rest, k => if k' = k then some v else dictGet? rest k

/-- Characterwise strict lexicographic comparison (helper for `pyStrLt`). -/
def charLt : List Char → List Char → Bool
  | [], [] => false
  | [], _ :: _ => true
  | _ :: _, [] => false
  | a :: as2, b :: bs =>
    if a < b then true else if b < a then false else charLt as2 bs

/-- Python `a < b` on strings: code-point lexicographic comparison. -/
def pyStrLt (a b : String) : Bool := charLt a.data b.data

/-- Python `max(keys)` on a nonempty list of strings, folded left, keeping the
current maximum on ties (string comparison is code-point lexicographic, as in
Python). -/
def pyMaxFold (cur : String) : List String → String
  | [] => cur
  | x :: xs => pyMaxFold (if pyStrLt cur x then x else cur) xs

/-- The comprehension `{x: v for (x, v) in d.items() if v[:1] == cur[:1]}` used
by the KDE major-version filter of `get_versions`.  The body slices
`cur[:1]`, so a `None` current version raises (`none`) as soon as the dict has
an entry, and an empty dict filters to an empty dict without raising — exactly
as in Python, where the comprehension body is never evaluated on an empty
dict. -/
def kdeFilter (cur : PyStr) : List (String × String) → Option (List (String × String))
  | [] => some []
  | (k, v) :: rest => do
    let c ← cur
    let tail ← kdeFilter cur rest
    pure (if pyTake v 1 = pyTake c 1 then (k, v) :: tail else tail)

/-- One extension-point value mapping under `add-extensions` /
`add-build-extensions` in the manifest: its `version` and `versions` keys.
A whole-value of `None` or `{}` (falsy in `get_extension_dict`) is embedded
as `none` at the use site. -/
structure ExtPointVal where
  version : Option String
  versions : Option String
deriving DecidableEq, Repr

/-- The five-element list `[version, versions, older_versions, latest,
is_self_defined]` that `get_extension_dict` stores per extension point and
`check_add_extensions` mutates (indices 0-4 in the source). -/
structure VersionInfo where
  v0 : PyStr
  v1 : PyStr
  olderVersions : List (String × String)
  latest : PyStr
  selfDefined : Bool
deriving DecidableEq, Repr

/-- An extension dict `self.add_extensions` / `self.add_build_extensions`. -/
abbrev ExtDict := List (String × VersionInfo)

/-- The manifest keys read by `RuntimeChecker.check` (`_root_manifest.get`). -/
structure Manifest where
  id : PyStr := none
  appId : PyStr := none
  runtime : PyStr := none
  runtimeVersion : PyStr := none
  base : PyStr := none
  baseVersion : PyStr := none
  sdk : PyStr := none
  branch : PyStr := none
  defaultBranch : PyStr := none
  addExtensions : Option (List (String × Option ExtPointVal)) := none
  addBuildExtensions : Option (List (String × Option ExtPointVal)) := none
  sdkExtensions : Option (List String) := none
  platformExtensions : Option (List String) := none
  inheritExtensions : Option (List String) := none
  inheritSdkExtensions : Option (List String) := none
  baseExtensions : Option (List String) := none
deriving DecidableEq, Repr

/-- `self.cannot_update_reason`: `none` is the initial empty string `""`;
`some parts` is a non-empty reason (the source assigns both plain strings and
tuples; both are embedded as their list of parts, `none` parts standing for
embedded `None` values). -/
abbrev Reason := Option (List PyStr)

/-- The instance attributes of `RuntimeChecker` that `check` computes
(the bump outputs, the extension category results, and the rejection
reason). -/
structure CheckerState where
  latestRuntimeVersion : PyStr := none
  latestBaseVersion : PyStr := none
  addExtensions : ExtDict := []
  addBuildExtensions : ExtDict := []
  foundExtensionPoints : List (String × String) := []
  cannotUpdateReason : Reason := none
  latestSdk : PyStr := none
  branch : PyStr := none
  defaultBranch : PyStr := none
  sdkExtensions : List (String × PyStr) := []
  platformExtensions : List (String × PyStr) := []
  inheritExtensions : List (String × PyStr) := []
  inheritSdkExtensions : List (String × PyStr) := []
  baseExtensions : List (String × PyStr) := []
deriving DecidableEq, Repr

/-- The subprocess world `RuntimeChecker` talks to.  `refMetadata` is the
line-oriented metadata block reachable for a cache key `name + version`
(the metadata cache of the source memoises a pure remote, so within one
`check` run the cached lookup is a function of the concatenated key; tool
failure is the empty block `[]`).  It models `check` invoked with a usable
`use_filled_cache` dict, as the test suite does — with the default
`use_filled_cache=None` every metadata access raises in the source.
`gitBranch` is the output of `git branch --show-current` (`none`: the
command failed, not a git repository). -/
structure Env where
  flathubList : List String
  refMetadata : String → List String
  gitBranch : Option String

/-- The value bound to `RuntimeChecker.check`'s third positional parameter
`remote_output`.  Its declared default is the string `""`; the facade
`SpecialChecker.check` passes its `is_app : bool` flag positionally into this
slot; the test suite passes a list of catalog lines. -/
inductive RemoteArg where
  | defaultEmpty
  | ofBool (b : Bool)
  | ofLines (l : List String)
deriving DecidableEq, Repr

/-- Python truthiness of the `remote_output` argument. -/
def RemoteArg.truthy : RemoteArg → Bool
  | .defaultEmpty => false
  | .ofBool b => b
  | .ofLines l => l ≠ []

/-- Iterating the `remote_output` argument as catalog lines (`for line in
self.remote_output`): a list iterates as itself, iterating a `bool` raises
`TypeError` (`none`). -/
def RemoteArg.lines? : RemoteArg → Option (List String)
  | .defaultEmpty => none
  | .ofBool _ => none
  | .ofLines l => some l

/-- Return value of `get_versions` (the source's 4-tuple), plus the local
`given_base_target` (the target triple of the catalog row matching the
current base version), recorded so that the scope of the KDE filter can be
stated. -/
structure GetVersionsRet where
  latestRuntimeVersion : PyStr
  latestBaseVersion : PyStr
  latestBaseTarget : String
  olderRuntimeVersions : List (String × String)
  givenBaseTarget : String
deriving DecidableEq, Repr

/-- The catalog-scanning loop of `get_versions` (`for line in
self.remote_output`), accumulating `runtime_versions`, `base_versions` and
`given_base_target`.  A line whose tab-split arity is neither 2 nor 3 while
matching `runtime` hits `assert 0`; a line matching `base` with fewer than 3
fields hits an `IndexError`: both are `none`. -/
def gvScan (runtime base baseVersion : PyStr) :
    List String → List (String × String) → List (String × String) → String →
    Option (List (String × String) × List (String × String) × String)
  | [], rv, bv, gbt => some (rv, bv, gbt)
  | line :: rest, rv, bv, gbt => do
    let split := pySplitChar '\t' line
    let s0 ← split.get? 0
    let rv' ←
      if runtime = some s0 then
        if split.length = 3 then do
          pure (dictInsert (← split.get? 2) (← split.get? 1) rv)
        else if split.length = 2 then do
          let v ← split.get? 1
          pure (dictInsert v v rv)
        else none
      else pure rv
    if pyTruthy base ∧ base = some s0 then do
      let s1 ← split.get? 1
      let s2 ← split.get? 2
      let gbt' := if baseVersion = some s1 then s2 else gbt
      gvScan runtime base baseVersion rest rv' (dictInsert s2 s1 bv) gbt'
    else
      gvScan runtime base baseVersion rest rv' bv gbt

/-- The runtime half of `get_versions`' selection (source lines 606-624): an
empty `runtime_versions` dict falls back to the current version, otherwise
the value at the maximal key is the latest and `older_runtime_versions` is
the sub-dict at keys not above the current version's key. -/
def gvLatestRuntime (runtimeVersion : PyStr) (rv1 : List (String × String)) :
    Option (PyStr × List (String × String)) :=
  match rv1 with
  | [] => some (runtimeVersion, ([] : List (String × String)))
  | (k0, _) :: restRv => do
    let mk := pyMaxFold k0 (restRv.map (fun p => p.1))
    let lv ← dictGet? rv1 mk
    let refOfCur :=
      match rv1.find? (fun p => runtimeVersion = some p.2) with
      | some p => p.1
      | none => ""
    let older :=
      if refOfCur ≠ "" then rv1.filter (fun p => !(pyStrLt refOfCur p.1)) else rv1
    pure (some lv, older)

/-- The base half of `get_versions`' selection (source lines 625-633): only
for a truthy base; an empty `base_versions` dict falls back to the current
base version, otherwise the value at the maximal key with that key as
`latest_base_target`. -/
def gvLatestBase (base baseVersion : PyStr) (bv1 : List (String × String)) :
    Option (PyStr × String) :=
  if pyTruthy base then
    match bv1 with
    | [] => some (baseVersion, "")
    | (k0, _) :: restBv => do
      let mk := pyMaxFold k0 (restBv.map (fun p => p.1))
      let lv ← dictGet? bv1 mk
      pure (some lv, mk)
  else some (baseVersion, "")

/-- `RuntimeChecker.get_versions(runtime, base, runtime_version,
base_version)`: latest versions of a runtime and optionally a base from the
`flatpak remote-ls` lines, with the KDE major-version filters, the
most-recent selection by maximal sort key, and the `older_runtime_versions`
sub-dict. -/
def get_versions (lines : List String) (runtime base runtimeVersion baseVersion : PyStr) :
    Option GetVersionsRet := do
  let (rv0, bv0, gbt) ← gvScan runtime base baseVersion lines [] [] ""
  -- `if "org.kde." in runtime:` — raises TypeError when runtime is None
  let r ← runtime
  let rv1 ← if pyIn "org.kde." r then kdeFilter runtimeVersion rv0 else pure rv0
  let bv1 ← if pyIn "org.kde." gbt then kdeFilter baseVersion bv0 else pure bv0
  let (latestRuntime, older) ← gvLatestRuntime runtimeVersion rv1
  let (latestBase, lbt) ← gvLatestBase base baseVersion bv1
  pure ⟨latestRuntime, latestBase, lbt, older, gbt⟩

/-- `RuntimeChecker.get_ref_metadata(name, version)` as seen from inside one
`check` run: the cached metadata block for the concatenated key
`name + version` (string concatenation — see `get_ref_metadataS` below for
the stateful cache itself).  Concatenating a `None` name or version raises
`TypeError` (`none`). -/
def get_ref_metadata_cached (env : Env) (name version : PyStr) : Option (List String) := do
  let n ← name
  let v ← version
  pure (env.refMetadata (n ++ v))

/-- `RuntimeChecker.is_extension_of_ref(ref_name, ref_version, extension)`:
true iff the metadata block contains the line `[Extension <extension>]`. -/
def is_extension_of_ref (env : Env) (refName refVersion : PyStr) (extension : String) :
    Option Bool := do
  let lines ← get_ref_metadata_cached env refName refVersion
  pure (lines.any (fun l => l = "[Extension " ++ extension ++ "]"))

/-- Scanning loop of `get_ref_ref_is_extension_of`: once a space-stripped line
equals `[ExtensionOf]` the candidate flag is set (and never reset); the first
following `ref=` line is parsed as a `/`-separated ref whose components 1 and
3 are returned (fewer components raise `IndexError`, `none`).  The outer
`some none` means the loop finished without a hit. -/
def extOfScan : List String → Bool → Option (Option (String × String))
  | [], _ => some none
  | l :: ls, cand =>
    let l' := stripSpaces l
    if l' = "[ExtensionOf]" then extOfScan ls true
    else if pyTake l' 4 = "ref=" ∧ cand then do
      let split := pySplitChar '/' (pyDrop l' 4)
      pure (some ((← split.get? 1), (← split.get? 3)))
    else extOfScan ls cand

/-- `RuntimeChecker.get_ref_ref_is_extension_of(ref_name, ref_version)`:
dereference an `[ExtensionOf]` block, else return the arguments unchanged. -/
def get_ref_ref_is_extension_of (env : Env) (refName refVersion : PyStr) :
    Option (PyStr × PyStr) := do
  let lines ← get_ref_metadata_cached env refName refVersion
  match ← extOfScan lines false with
  | some (n, v) => pure (some n, some v)
  | none => pure (refName, refVersion)

/-- Scanning loop of `get_baseapp_target`: candidate set by a literal
`[Application]` line (no space stripping in the source here), the first
following `sdk=` line is split on `/` and components 0 and 2 returned. -/
def baseappScan : List String → Bool → Option (Option (String × String))
  | [], _ => some none
  | l :: ls, cand =>
    if l = "[Application]" then baseappScan ls true
    else if pyTake l 4 = "sdk=" ∧ cand then do
      let split := pySplitChar '/' (pyDrop l 4)
      pure (some ((← split.get? 0), (← split.get? 2)))
    else baseappScan ls cand

/-- `RuntimeChecker.get_baseapp_target(runtime, runtime_version)`: the
`sdk=` target of an `[Application]` metadata block, else the arguments
unchanged. -/
def get_baseapp_target (env : Env) (runtime runtimeVersion : PyStr) :
    Option (PyStr × PyStr) := do
  let lines ← get_ref_metadata_cached env runtime runtimeVersion
  match ← baseappScan lines false with
  | some (n, v) => pure (some n, some v)
  | none => pure (runtime, runtimeVersion)

/-- The Timezones probe loop at the end of `get_freedesktop_target`: on the
space-stripped lines, `[Extensionorg.freedesktop.Platform.Timezones]` sets
the candidate flag, an empty line resets it, and the first `version=` line
while the flag is set is returned; otherwise `found_version` stays `""`. -/
def tzScan : List String → Bool → String
  | [], _ => ""
  | l :: ls, cand =>
    let l' := stripSpaces l
    if l' = "[Extensionorg.freedesktop.Platform.Timezones]" then tzScan ls true
    else if pyTake l' 8 = "version=" ∧ cand then pyDrop l' 8
    else if l' = "" then tzScan ls false
    else tzScan ls cand

/-- The catalog loop of `get_freedesktop_target`: for each line whose field 0
equals the ref name, field 1 is read (raising on a 1-field line); when it
equals the ref version and the line has 3 fields, the target triple's
components 0 and 2 are fed to the recursive call (`recurse`); otherwise the
scan continues.  `some (some r)` is an early `return r`; `some none` means
the loop completed. -/
def fdtScan (recurse : PyStr → PyStr → Option PyStr) (rn rv : String) :
    List String → Option (Option PyStr)
  | [] => some none
  | line :: rest =>
    let split := pySplitChar '\t' line
    if split.get? 0 = some rn then do
      let s1 ← split.get? 1
      if s1 = rv ∧ split.length = 3 then do
        let s2 ← split.get? 2
        let parts := pySplitChar '/' s2
        let p0 ← parts.get? 0
        let p2 ← parts.get? 2
        let res ← recurse (some p0) (some p2)
        pure (some res)
      else fdtScan recurse rn rv rest
    else fdtScan recurse rn rv rest

/-- `RuntimeChecker.get_freedesktop_target(ref_name, ref_version)`.  The
source recurses without a bound (a cyclic catalog would not terminate), so
the embedding carries a fuel parameter; exhausted fuel is `none` like a
crash.  `org.freedesktop.`-named refs return their version directly; the
failed `assert ref_name and ref_version` is `none`; otherwise the catalog is
scanned (recursing through 3-field rows), then `[ExtensionOf]` and
`[Application]` chains are dereferenced and the Timezones probe is read. -/
def get_freedesktop_target (env : Env) (lines : List String) :
    Nat → PyStr → PyStr → Option PyStr
  | 0, _, _ => none
  | Nat.succ fuel, refName, refVersion => do
    let rn ← refName
    if pyIn "org.freedesktop." rn then
      pure refVersion
    else do
      if rn = "" then failure
      let rv ← refVersion
      if rv = "" then failure
      match ← fdtScan (get_freedesktop_target env lines fuel) rn rv lines with
      | some r => pure r
      | none => do
        let (rn1, rv1) ← get_ref_ref_is_extension_of env (some rn) (some rv)
        let (rn2?, rv2?) ← get_baseapp_target env rn1 rv1
        let rn2 ← rn2?
        if pyIn "org.freedesktop." rn2 then
          pure rv2?
        else do
          if rn2 = "" then failure
          let rv2 ← rv2?
          if rv2 = "" then failure
          let mlines ← get_ref_metadata_cached env (some rn2) (some rv2)
          pure (some (tzScan mlines false))

/-- `RuntimeChecker.check_extension_versions(name, version, runtime,
latest_runtime_version, is_self_defined)`: false iff the freedesktop targets
differ and the extension is not self-defined. -/
def check_extension_versions (env : Env) (lines : List String) (fuel : Nat)
    (name version runtime latestRuntimeVersion : PyStr) (isSelfDefined : Bool) :
    Option Bool := do
  let a ← get_freedesktop_target env lines fuel name version
  let b ← get_freedesktop_target env lines fuel runtime latestRuntimeVersion
  pure (¬ (a ≠ b ∧ ¬ isSelfDefined))

/-- The per-run context shared by `check`'s helpers: the subprocess
environment, the resolved catalog lines (`self.remote_output`), the
recursion fuel for `get_freedesktop_target`, and `self.app_id`. -/
structure ExtCtx where
  env : Env
  lines : List String
  fuel : Nat
  appId : PyStr

/-- Return tuple of `get_extension_versions`: `(a[0],
get_ref_ref_is_extension_of(cleaned_name, a[0]), a[3], is_self_defined)`. -/
structure ExtVersionsRet where
  latest : PyStr
  extensionCore : PyStr × PyStr
  older : List (String × String)
  isSelfDefined : Bool
deriving DecidableEq, Repr

/-- `RuntimeChecker.get_extension_versions(name, version)`.  The second
component of the result pair is the updated `self.found_extension_points`
dict (mutated when a self-defined extension point is discovered). -/
def get_extension_versions (ctx : ExtCtx) (fep : List (String × String))
    (name : String) (version : PyStr) :
    Option (ExtVersionsRet × List (String × String)) := do
  let cleanedName :=
    if name = "org.freedesktop.Platform.GL32" then name ++ ".default"
    else if name = "org.freedesktop.LinuxAudio.Plugins" then
      "org.freedesktop.LinuxAudio.BaseExtension"
    else name
  let a0 ← get_versions ctx.lines (some cleanedName) none version none
  let (a, fep', isSelfDefined) ←
    if a0.olderRuntimeVersions = [] then do
      let (ecn, _ecv) ← get_ref_ref_is_extension_of ctx.env (some cleanedName) version
      if ecn = ctx.appId then do
        let a1 ← get_versions ctx.lines ecn none version none
        pure (a1, fep, false)
      else do
        let guessed := joinWith "." ((pySplitChar '.' name).dropLast)
        let hit ←
          if (dictGet? fep name).isSome then pure true
          else is_extension_of_ref ctx.env (some guessed) (some "") name
        if hit then do
          let v ← version
          let a1 ← get_versions ctx.lines (some guessed) none version none
          pure (a1, dictInsert name (guessed ++ "//" ++ v) fep, true)
        else pure (a0, fep, false)
    else pure (a0, fep, false)
  let core ← get_ref_ref_is_extension_of ctx.env (some cleanedName) a.latestRuntimeVersion
  pure (⟨a.latestRuntimeVersion, core, a.olderRuntimeVersions, isSelfDefined⟩, fep')

/-- Clear-all-bumps assignment shared by every failure branch of
`check_extensions` and `check_add_extensions`: set the reason and
simultaneously clear `latest_runtime_version`, `latest_base_version`,
`add_extensions` and `add_build_extensions`. -/
def clearBumps (reason : List PyStr) (st : CheckerState) : CheckerState :=
  { st with cannotUpdateReason := some reason, latestRuntimeVersion := none,
            latestBaseVersion := none, addExtensions := [], addBuildExtensions := [] }

/-- The per-extension loop of `check_extensions`.  `extension_core` is always
a 2-tuple in the source (hence always truthy), so the three branches are
decided by `extension_core[0] == base` and `only_base`. -/
def check_extensions_step (ctx : ExtCtx)
    (runtime runtimeVersion latestRuntimeVersion base latestBaseVersion : PyStr)
    (onlyBase : Bool) (extension : String) (acc : List (String × PyStr))
    (st : CheckerState) : Option (List (String × PyStr) × CheckerState) :=
  match get_extension_versions ctx st.foundExtensionPoints extension runtimeVersion with
  | none => none
  | some (r, fep') =>
    let st := { st with foundExtensionPoints := fep' }
    if r.extensionCore.1 = base then
      match check_extension_versions ctx.env ctx.lines ctx.fuel (some extension)
        r.latest r.extensionCore.1 latestBaseVersion r.isSelfDefined with
      | none => none
      | some ok =>
        if ok then some (dictInsert extension r.latest acc, st)
        else some (acc, clearBumps
          [some "Extension", some extension, some "is not available for base", base,
           some "not offering runtime updates"] st)
    else if ¬ onlyBase then
      match get_baseapp_target ctx.env r.extensionCore.1 r.extensionCore.2 with
      | none => none
      | some (pb, pbv) =>
        match (if pb = r.extensionCore.1 ∧ pbv = r.extensionCore.2 then
            check_extension_versions ctx.env ctx.lines ctx.fuel (some extension)
              r.latest runtime latestRuntimeVersion r.isSelfDefined
          else some false) with
        | none => none
        | some ok =>
          if ok then some (dictInsert extension r.latest acc, st)
          else some (acc, clearBumps
            [some "Extension", some extension, some "is not available for runtime/sdk",
             latestRuntimeVersion, some "not offering runtime updates"] st)
    else
      some (acc, clearBumps
        [some "Unable to find recent version of extension", some extension,
         some "not offering runtime updates"] st)

def check_extensions_go (ctx : ExtCtx)
    (runtime runtimeVersion latestRuntimeVersion base latestBaseVersion : PyStr)
    (onlyBase : Bool) :
    List String → List (String × PyStr) → CheckerState →
    Option (List (String × PyStr) × CheckerState)
  | [], acc, st => some (acc, st)
  | extension :: rest, acc, st =>
    match check_extensions_step ctx runtime runtimeVersion latestRuntimeVersion base
        latestBaseVersion onlyBase extension acc st with
    | none => none
    | some (acc, st) =>
      check_extensions_go ctx runtime runtimeVersion latestRuntimeVersion base
        latestBaseVersion onlyBase rest acc st

/-- `RuntimeChecker.check_extensions(category, runtime, runtime_version,
latest_runtime_version, base, latest_base_version, only_base)`: validate one
extension-list category, returning the `extensions_dict` and the updated
checker state (a falsy category — absent or empty — skips the loop). -/
def check_extensions (ctx : ExtCtx) (extensions : Option (List String))
    (runtime runtimeVersion latestRuntimeVersion base latestBaseVersion : PyStr)
    (onlyBase : Bool) (st : CheckerState) :
    Option (List (String × PyStr) × CheckerState) :=
  match extensions with
  | none => some ([], st)
  | some exts =>
    check_extensions_go ctx runtime runtimeVersion latestRuntimeVersion base
      latestBaseVersion onlyBase exts [] st

/-- The inner sub-version loop of `check_add_extensions`' first pass,
folding `get_extension_versions` results into one `version_info`. -/
def caeSubVersions (ctx : ExtCtx) (name : String) :
    List String → VersionInfo → List (String × String) →
    Option (VersionInfo × List (String × String))
  | [], vi, fep => some (vi, fep)
  | sv :: rest, vi, fep => do
    let (r, fep') ← get_extension_versions ctx fep name (some sv)
    let vi := if pyTruthy r.latest then { vi with latest := r.latest } else vi
    let vi :=
      if (r.older ≠ [] ∧ vi.olderVersions = []) ∨ vi.olderVersions.length > r.older.length
      then { vi with olderVersions := r.older } else vi
    let vi := { vi with selfDefined := r.isSelfDefined }
    caeSubVersions ctx name rest vi fep'

/-- First pass of `check_add_extensions`: for every extension point, split
its `version` and `versions` declarations and resolve latest/older versions,
mutating the `version_info` values in place. -/
def caePhase1 (ctx : ExtCtx) :
    List (String × VersionInfo) → ExtDict → List (String × String) →
    Option (ExtDict × List (String × String))
  | [], acc, fep => some (acc, fep)
  | (name, vi) :: rest, acc, fep => do
    let versionSplit :=
      match vi.v0 with
      | some s => if s ≠ "" then pySplitChar ';' s else []
      | none => []
    let versionsSplit :=
      match vi.v1 with
      | some s => if s ≠ "" then pySplitChar ';' s else []
      | none => []
    let (vi', fep') ← caeSubVersions ctx name (versionSplit ++ versionsSplit) vi fep
    caePhase1 ctx rest (acc ++ [(name, vi')]) fep'

/-- The inner version loop of `check_add_extensions`' second pass: the guard
`extension[name]` is always truthy (a five-element list), so each iteration
runs `check_extension_versions`; the first failure yields the reason tuple
and breaks. -/
def caeInner (ctx : ExtCtx) (runtime latestRuntimeVersion : PyStr)
    (name : String) (vi : VersionInfo) :
    List String → Option (Bool × List PyStr)
  | [] => some (false, [])
  | _ :: rest => do
    let ok ← check_extension_versions ctx.env ctx.lines ctx.fuel (some name)
      vi.latest runtime latestRuntimeVersion vi.selfDefined
    if ok then caeInner ctx runtime latestRuntimeVersion name vi rest
    else pure (true, [some "Cannot update", some name, vi.latest, runtime, latestRuntimeVersion])

/-- Second pass of `check_add_extensions`: normalise falsy `version` /
`versions` fields to `""`, re-split, and validate; a failing extension sets
the reason (kept from the last failing entry) while the outer loop goes on.
Returns the mutated dict, whether any entry failed, and the failure
reason. -/
def caePhase2 (ctx : ExtCtx) (runtime latestRuntimeVersion : PyStr) :
    List (String × VersionInfo) → ExtDict → Bool → Option (List PyStr) →
    Option (ExtDict × Bool × Option (List PyStr))
  | [], acc, failed, reason => some (acc, failed, reason)
  | (name, vi) :: rest, acc, failed, reason => do
    let v0 := match vi.v0 with | some s => s | none => ""
    let v1 := match vi.v1 with | some s => s | none => ""
    let vi' := { vi with v0 := some v0, v1 := some v1 }
    let (f, r) ← caeInner ctx runtime latestRuntimeVersion name vi'
      (pySplitChar ';' v0 ++ pySplitChar ';' v1)
    if f then
      caePhase2 ctx runtime latestRuntimeVersion rest (acc ++ [(name, vi')]) true (some r)
    else
      caePhase2 ctx runtime latestRuntimeVersion rest (acc ++ [(name, vi')]) failed reason

/-- `RuntimeChecker.check_add_extensions(extension, runtime,
latest_runtime_version)` over one extension dict: returns the in-place
mutated dict, whether some entry failed (clearing all bump outputs in the
source), the recorded reason, and the updated `found_extension_points`. -/
def check_add_extensions (ctx : ExtCtx) (extension : ExtDict)
    (runtime latestRuntimeVersion : PyStr) (fep : List (String × String)) :
    Option (ExtDict × Bool × Option (List PyStr) × List (String × String)) := do
  if extension = [] then pure (extension, false, none, fep)
  else do
    let (ext1, fep') ← caePhase1 ctx extension [] fep
    let (ext2, failed, reason) ← caePhase2 ctx runtime latestRuntimeVersion ext1 [] false none
    pure (ext2, failed, reason, fep')

/-- `check`'s invocation `self.check_add_extensions(self.add_extensions,
...)`: on failure the source replaced both extension-dict attributes by `{}`
(together with the reason and the two version fields); otherwise the
attribute keeps the in-place-mutated dict. -/
def apply_check_add_extensions_on_add (ctx : ExtCtx)
    (runtime latestRuntimeVersion : PyStr) (st : CheckerState) : Option CheckerState := do
  let (ext, failed, reason, fep) ←
    check_add_extensions ctx st.addExtensions runtime latestRuntimeVersion st.foundExtensionPoints
  let st := { st with foundExtensionPoints := fep }
  if failed then
    pure { st with cannotUpdateReason := reason, latestRuntimeVersion := none,
                   latestBaseVersion := none, addExtensions := [], addBuildExtensions := [] }
  else
    pure { st with addExtensions := ext }

/-- `check`'s invocation `self.check_add_extensions(self.add_build_extensions,
...)` (the argument is the attribute's value at call time, `{}` when the
first invocation failed). -/
def apply_check_add_extensions_on_build (ctx : ExtCtx)
    (runtime latestRuntimeVersion : PyStr) (st : CheckerState) : Option CheckerState := do
  let (ext, failed, reason, fep) ←
    check_add_extensions ctx st.addBuildExtensions runtime latestRuntimeVersion st.foundExtensionPoints
  let st := { st with foundExtensionPoints := fep }
  if failed then
    pure { st with cannotUpdateReason := reason, latestRuntimeVersion := none,
                   latestBaseVersion := none, addExtensions := [], addBuildExtensions := [] }
  else
    pure { st with addBuildExtensions := ext }

/-- The SDK side-check of `check` (source lines 182-191): when `sdk` is a
3-part `/`-triple with a nonempty branch, independently resolve the SDK's
latest version (note the source passes the SDK *name* as the
`runtime_version` argument) and, when its freedesktop target equals the
runtime's, record `latest_sdk`.  No other attribute is touched. -/
def sdk_side_check (ctx : ExtCtx) (sdk runtime latestRuntimeVersionLocal : PyStr)
    (st : CheckerState) : Option CheckerState :=
  match sdk with
  | none => some st
  | some s =>
    if s ≠ "" ∧ (pySplitChar '/' s).length = 3 ∧ (pySplitChar '/' s).getD 2 "" ≠ "" then do
      let p0 ← (pySplitChar '/' s).get? 0
      let sdkData ← get_versions ctx.lines (some p0) none (some p0) none
      let a ← get_freedesktop_target ctx.env ctx.lines ctx.fuel (some p0)
        sdkData.latestRuntimeVersion
      let b ← get_freedesktop_target ctx.env ctx.lines ctx.fuel runtime
        latestRuntimeVersionLocal
      if a = b then pure { st with latestSdk := sdkData.latestRuntimeVersion }
      else pure st
    else some st

/-- `RuntimeChecker.check_branch(branch, default_branch, runtime_version,
latest_runtime_version)`: propose a branch/default-branch bump when the
field equals the current runtime version. -/
def check_branch (branch defaultBranch runtimeVersion latestRuntimeVersion : PyStr)
    (st : CheckerState) : CheckerState :=
  let st :=
    if pyTruthy defaultBranch ∧ defaultBranch = runtimeVersion then
      { st with defaultBranch := latestRuntimeVersion }
    else st
  if pyTruthy branch ∧ branch = runtimeVersion then
    { st with branch := latestRuntimeVersion }
  else st

/-- The loop of `get_extension_dict`: a falsy value mapping
(`not extensions.get(extension_point)`) returns the dict built so far,
abandoning every later extension point of the category. -/
def getExtensionDictGo : List (String × Option ExtPointVal) → ExtDict → ExtDict
  | [], acc => acc
  | (_, none) :: _, acc => acc
  | (pt, some v) :: rest, acc =>
    getExtensionDictGo rest (dictInsert pt ⟨v.version, v.versions, [], none, false⟩ acc)

/-- `RuntimeChecker.get_extension_dict(category)`: build the five-element
`version_info` per extension point of `add-extensions` /
`add-build-extensions`. -/
def get_extension_dict : Option (List (String × Option ExtPointVal)) → ExtDict
  | none => []
  | some exts => getExtensionDictGo exts []

/-- The fixed first component of the branch-lock `cannot_update_reason`
tuple. -/
def branchLockMessage : String :=
  "Will not check for runtime updates since on a Flathub defined, runtime version locked branch:"

/-- `RuntimeChecker.runtime_from_branch()`: on `git branch --show-current`
failure return `None`; when the branch name's first 7 characters are
`branch/`, set `cannot_update_reason` (a tuple naming the branch) and return
the remainder; else return `None`.  The boolean truthiness of the result
decides `check`'s short-circuit, so a branch named exactly `branch/` sets
the reason yet returns the falsy `""`. -/
def runtime_from_branch (gitBranch : Option String) (st : CheckerState) :
    Option String × CheckerState :=
  match gitBranch with
  | none => (none, st)
  | some b =>
    if pyTake b 7 = "branch/" then
      (some (pyDrop b 7),
       { st with cannotUpdateReason := some [some branchLockMessage, some b] })
    else (none, st)

/-- `self.app_id = _root_manifest.get("id") or _root_manifest.get("app-id")`. -/
def check_app_id (m : Manifest) : PyStr :=
  if pyTruthy m.id then m.id else m.appId

/-- The attribute state at the top of `check` after the extension dicts are
built (`__init__` defaults plus lines 104-116). -/
def initCheckState (m : Manifest) : CheckerState :=
  { addExtensions := get_extension_dict m.addExtensions,
    addBuildExtensions := get_extension_dict m.addBuildExtensions }

/-- Everything `check` does after the branch-lock gate and the resolution of
`self.remote_output` into catalog lines: version resolution, the base
compatibility gate, the SDK side-check, both add-extension passes, the five
extension categories, and the branch bumps. -/
def mainCheck (ctx : ExtCtx) (m : Manifest) (st : CheckerState) : Option CheckerState := do
  let runtime := m.runtime
  let runtimeVersion := m.runtimeVersion
  let base := m.base
  let baseVersion := m.baseVersion
  let gv ← get_versions ctx.lines runtime base runtimeVersion baseVersion
  let latestRuntimeVersion := gv.latestRuntimeVersion
  let latestBaseVersion := gv.latestBaseVersion
  let runtimeUpdateAvailable ←
    if pyTruthy latestRuntimeVersion then do
      let x ← latestRuntimeVersion
      let y ← runtimeVersion
      pure (pyStrLt y x)
    else pure false
  let baseUpdateAvailable ←
    if pyTruthy latestBaseVersion then do
      let x ← latestBaseVersion
      let y ← baseVersion
      pure (pyStrLt y x)
    else pure false
  let st ←
    if pyTruthy base then do
      let runtimeFdo ← get_freedesktop_target ctx.env ctx.lines ctx.fuel runtime
        latestRuntimeVersion
      let baseappFdo ←
        if gv.latestBaseTarget ≠ "" then do
          let parts := pySplitChar '/' gv.latestBaseTarget
          let p0 ← parts.get? 0
          let p2 ← parts.get? 2
          get_freedesktop_target ctx.env ctx.lines ctx.fuel (some p0) (some p2)
        else pure (some "")
      if gv.latestBaseTarget ≠ "" ∧ pyTruthy runtimeFdo ∧ pyTruthy baseappFdo ∧
          runtimeFdo = baseappFdo then
        if baseUpdateAvailable then
          pure { st with latestRuntimeVersion := latestRuntimeVersion,
                         latestBaseVersion := latestBaseVersion }
        else
          pure { st with latestRuntimeVersion := latestRuntimeVersion,
                         latestBaseVersion := none }
      else
        pure { st with cannotUpdateReason := some [some "could not find matching base for latest runtime version"] }
    else
      if runtimeUpdateAvailable then
        pure { st with latestRuntimeVersion := latestRuntimeVersion }
      else pure st
  let st ← sdk_side_check ctx m.sdk runtime latestRuntimeVersion st
  let (sdkToCheck, sdkLatestToCheck, sdkVersionToCheck) ←
    if pyTruthy st.latestSdk then do
      let s ← m.sdk
      let parts := pySplitChar '/' s
      let p0 ← parts.get? 0
      let p2 ← parts.get? 2
      pure ((some p0 : PyStr), st.latestSdk, (some p2 : PyStr))
    else
      pure (runtime, latestRuntimeVersion, runtimeVersion)
  let st ← apply_check_add_extensions_on_add ctx sdkToCheck sdkLatestToCheck st
  let st ← apply_check_add_extensions_on_build ctx sdkToCheck sdkLatestToCheck st
  let (d1, st) ← check_extensions ctx m.sdkExtensions sdkToCheck sdkVersionToCheck
    sdkLatestToCheck (some "") (some "") false st
  let st := { st with sdkExtensions := d1 }
  let (d2, st) ← check_extensions ctx m.platformExtensions sdkToCheck sdkVersionToCheck
    sdkLatestToCheck (some "") (some "") false st
  let st := { st with platformExtensions := d2 }
  let (d3, st) ← check_extensions ctx m.inheritExtensions sdkToCheck sdkVersionToCheck
    sdkLatestToCheck base latestBaseVersion false st
  let st := { st with inheritExtensions := d3 }
  let (d4, st) ← check_extensions ctx m.inheritSdkExtensions sdkToCheck sdkVersionToCheck
    sdkLatestToCheck base latestBaseVersion false st
  let st := { st with inheritSdkExtensions := d4 }
  let (d5, st) ← check_extensions ctx m.baseExtensions runtime runtimeVersion
    latestRuntimeVersion base latestBaseVersion true st
  let st := { st with baseExtensions := d5 }
  pure (check_branch m.branch m.defaultBranch runtimeVersion latestRuntimeVersion st)

/-- Control-flow observables of one `check` run: whether it returned at the
branch-lock short-circuit, and whether it invoked `get_flathub_list` (the
remote catalog fetch at source lines 131-132). -/
structure CheckTrace where
  branchLockReturn : Bool
  fetchedCatalog : Bool
deriving DecidableEq, Repr

/-- `RuntimeChecker.check(_root_manifest, _root_manifest_path,
remote_output, ...)`.  The presence assertions for runtime/base pairs, the
nothing-to-do return, the branch-lock gate, the catalog resolution (the
third positional argument is `remote_output`; only when falsy is the remote
list fetched, and a non-list truthy value raises when iterated), then
`mainCheck`. -/
def RuntimeChecker_check (env : Env) (fuel : Nat) (m : Manifest)
    (remoteOutput : RemoteArg) : Option (CheckerState × CheckTrace) :=
  let st0 := initCheckState m
  if (m.runtime = none ∨ m.runtimeVersion = none) ∧ m.runtime ≠ m.runtimeVersion then none
  else if (m.base = none ∨ m.baseVersion = none) ∧ m.base ≠ m.baseVersion then none
  else if ¬ pyTruthy m.runtime ∧ ¬ pyTruthy m.base then some (st0, ⟨false, false⟩)
  else
    let (lock, st1) := runtime_from_branch env.gitBranch st0
    if pyTruthy lock then
      some (st1, ⟨true, false⟩)
    else
      match (if remoteOutput.truthy then remoteOutput.lines? else some env.flathubList) with
      | none => none
      | some lines =>
        match mainCheck ⟨env, lines, fuel, check_app_id m⟩ m st1 with
        | none => none
        | some st => some (st, ⟨false, ¬ remoteOutput.truthy⟩)

/-- `SpecialChecker.check`'s runtime-checker invocation
`await self.runtime_checker.check(manifest_file, manifest_path, is_app)`:
the boolean `is_app` is the third positional argument, which
`RuntimeChecker.check` binds to `remote_output`. -/
def SpecialChecker_runtime_check (env : Env) (fuel : Nat) (m : Manifest)
    (isApp : Bool) : Option (CheckerState × CheckTrace) :=
  RuntimeChecker_check env fuel m (RemoteArg.ofBool isApp)

/-- Observable outcome of `RuntimeChecker.update()`: the `changes` mapping it
builds, whether `dump_manifest` was invoked, and the function's Python return
value (`none` embeds the implicit `return None`; `some l` would embed
returning a list of change strings). -/
structure UpdateOutcome where
  changes : List (String × String)
  dumped : Bool
  returnValue : Option (List String)
deriving DecidableEq, Repr

/-- `RuntimeChecker.update()` (with `on_flathub = True` as in the source, the
randomised rollout gate being commented out): insert `runtime-version` and
`base-version` into `changes` when truthy, call `dump_manifest` when either
is, and fall off the end — returning `None` (`return
self.latest_runtime_version` is commented out in the source). -/
def RuntimeChecker_update (st : CheckerState) : UpdateOutcome :=
  let c1 : List (String × String) :=
    match st.latestRuntimeVersion with
    | some v => if v ≠ "" then [("runtime-version", v)] else []
    | none => []
  let c2 : List (String × String) :=
    match st.latestBaseVersion with
    | some v => if v ≠ "" then [("base-version", v)] else []
    | none => []
  { changes := c1 ++ c2,
    dumped := pyTruthy st.latestRuntimeVersion ∨ pyTruthy st.latestBaseVersion,
    returnValue := none }

/-- Modelled from the spec: `dump_manifest` (from `src.lib.utils`, which is
not part of the given sources) "applies the mapping of proposed bumps to the
manifest file on disk", preserving every field it is not told to change —
embedded as merging the `changes` mapping into the manifest's key/value
mapping. -/
def dump_manifest (changes manifest : List (String × String)) : List (String × String) :=
  changes.foldl (fun m kv => dictInsert kv.1 kv.2 m) manifest

/-- `SpecialChecker.update()`'s final statement `return submodule_changes +
runtime_changes`: concatenating a list with `RuntimeChecker.update()`'s
return value raises `TypeError` (`none`) when the latter is `None`. -/
def SpecialChecker_update (submoduleChanges : List String) (rc : UpdateOutcome) :
    Option (List String) :=
  match rc.returnValue with
  | some l => some (submoduleChanges ++ l)
  | none => none

/-- `RuntimeChecker.get_ref_metadata(name, version)` with its cache state
explicit (`self.ref_metadata_cache`, a dict keyed by the concatenation
`name + version`).  `remote` is the `flatpak remote-info` subprocess:
`none` is a `CalledProcessError`, `some lines` its stdout.  The result is
`(block, new cache, fetched)` where `fetched` records whether the subprocess
was invoked (`fill_test_cache` is a no-op with the production default
`fill_cache = ""`). -/
def get_ref_metadataS (remote : String → String → Option (List String))
    (cache : List (String × List String)) (name version : String) :
    List String × List (String × List String) × Bool :=
  match dictGet? cache (name ++ version) with
  | some block => (block, cache, false)
  | none =>
    match remote name version with
    | none => ([], dictInsert (name ++ version) [] cache, true)
    | some lines => (lines, dictInsert (name ++ version) lines cache, true)

/-- The `Submodule` class of `submodulechecker.py` (named `GitSubmodule` here
since Mathlib already takes the name `Submodule`).  Paths are embedded as lists of
path components (the string form of a path is `joinComps` of its
components); `modules` maps a referenced module file to its
`[current_hash, updated_hash]` pair. -/
structure GitSubmodule where
  path : List String
  nested : Bool
  relativePath : String
  commit : String
  modules : List (String × (String × String))
deriving DecidableEq, Repr

/-- The string form of a component path (what `submodule.path` is in the
source, and what `max(submodules_found, key=lambda x: x.path)` compares). -/
def joinComps : List String → String
  | [] => ""
  | [c] => c
  | c :: rest => c ++ "/" ++ joinComps rest

/-- `os.path.commonpath([a, b])` on two already-normalised absolute paths,
on their component lists: the longest common component prefix. -/
def commonPathComps : List String → List String → List String
  | a :: as2, b :: bs => if a = b then a :: commonPathComps as2 bs else []
  | _, _ => []

/-- The selection fold `max(submodules_found, key=lambda x: x.path)`:
Python's `max` keeps the current maximum on ties and replaces it only on a
strictly greater key. -/
def maxByPath (cur : GitSubmodule) : List GitSubmodule → GitSubmodule
  | [] => cur
  | x :: xs => maxByPath (if pyStrLt (joinComps cur.path) (joinComps x.path) then x else cur) xs

/-- The candidate loop of `_module_in_submodule`: a submodule is collected
when `submodule_dir == os.path.commonpath([submodule_dir, module_path])`
with `submodule_dir = os.path.join(working_git_top_level_dir,
submodule.path)` (component-list append).  The `assert submodule.path` on
an empty path raises (`none`). -/
def collectMatches (topLevel moduleAbs : List String) :
    List GitSubmodule → Option (List GitSubmodule)
  | [] => some []
  | sub :: rest =>
    if sub.path = [] then none
    else do
      let tail ← collectMatches topLevel moduleAbs rest
      let dir := topLevel ++ sub.path
      pure (if commonPathComps dir moduleAbs = dir then sub :: tail else tail)

/-- `SubmoduleChecker._module_in_submodule(module_path)` on the
already-resolved absolute module path (the source first computes
`os.path.normpath(os.path.join(self.working_manifest_dir, module_path))`;
the embedding takes that normalised path as input): the matching submodule
with the maximal path string, or a fresh `GitSubmodule("", False, "")` when
none matches. -/
def module_in_submodule (topLevel : List String) (submodules : List GitSubmodule)
    (moduleAbs : List String) : Option GitSubmodule := do
  let found ← collectMatches topLevel moduleAbs submodules
  match found with
  | [] => pure (GitSubmodule.mk [] false "" "" [])
  | f :: fs => pure (maxByPath f fs)

/-- `Submodule.add_module(module)` followed by the two hash setters used by
`_check_module_hash`: the `assert not self._modules.get(module)` raises when
the module is already present (a stored pair is a nonempty list, hence
truthy). -/
def addModuleWithHashes (sub : GitSubmodule) (module current updated : String) :
    Option GitSubmodule :=
  match dictGet? sub.modules module with
  | some _ => none
  | none => some { sub with modules := dictInsert module (current, updated) sub.modules }

/-- `SubmoduleChecker._get_module_hash(...)`: the SHA-256 hex digest of the
file, or `""` when opening the file raised `IOError` (the digest itself is an
input of the embedding: `none` is an unreadable/missing file, `some h` a
successful read with digest `h`). -/
def get_module_hash (readResult : Option String) : String :=
  match readResult with
  | some h => h
  | none => ""

/-- The tail of `SubmoduleChecker._check_module_hash` after both hashes are
computed and `_get_latest_submodule` has recorded the updated commit: a
module path whose hashes differ is recorded against the submodule — the
`if not current_hash or not updated_hash:` guard above it only logs and does
not skip. -/
def check_module_hash (currentRead updatedRead : Option String) (newCommit : String)
    (relativeModulePath : String) (sub : GitSubmodule) : Option GitSubmodule :=
  if sub.path = [] then none
  else
    let currentHash := get_module_hash currentRead
    let sub := if sub.commit = "" then { sub with commit := newCommit } else sub
    let updatedHash := get_module_hash updatedRead
    if currentHash ≠ updatedHash then
      addModuleWithHashes sub relativeModulePath currentHash updatedHash
    else
      some sub

/-! Concrete environments, manifests and states used by the closed theorems
below (small worlds with explicit `flatpak remote-ls` catalogs, empty
metadata blocks, and a fixed git branch). -/

/-- Catalog with a freedesktop runtime update available; git on `main`. -/
def envFdoUpdate : Env :=
  ⟨["org.freedesktop.Platform\t20.08", "org.freedesktop.Platform\t21.08"],
   fun _ => [], some "main"⟩

/-- Manifest declaring only a freedesktop runtime at 20.08. -/
def mFdoApp : Manifest :=
  { id := some "org.example.App", runtime := some "org.freedesktop.Platform",
    runtimeVersion := some "20.08" }

/-- Workspace checked out on the runtime-locked branch `branch/20.08`. -/
def envLockedBranch : Env := ⟨[], fun _ => [], some "branch/20.08"⟩

/-- Manifest with a runtime and one populated `add-extensions` point. -/
def mWithAddExtension : Manifest :=
  { runtime := some "org.freedesktop.Platform", runtimeVersion := some "20.08",
    addExtensions := some [("org.example.Ext", some ⟨some "1", none⟩)] }

/-- Workspace whose current git branch is exactly `branch/` (starts with the
lock prefix but with an empty remainder). -/
def envBareBranchPrefix : Env :=
  ⟨["org.freedesktop.Platform\t20.08"], fun _ => [], some "branch/"⟩

/-- Manifest at the latest runtime already. -/
def mFdoCurrent : Manifest :=
  { runtime := some "org.freedesktop.Platform", runtimeVersion := some "20.08" }

/-- Catalog where the declared base's target cannot be matched (its metadata
is empty, so its freedesktop target resolves to `""`), while an explicit SDK
triple does resolve to the runtime's target. -/
def envSdkVsBase : Env :=
  ⟨["org.freedesktop.Platform\t20.08", "org.freedesktop.Sdk\t20.08",
    "com.example.BaseApp\t1\torg.gnome.Platform/x86_64/40"],
   fun _ => [], some "main"⟩

/-- Manifest with runtime, unmatchable base, and an explicit SDK triple. -/
def mSdkVsBase : Manifest :=
  { id := some "org.example.App", runtime := some "org.freedesktop.Platform",
    runtimeVersion := some "20.08", base := some "com.example.BaseApp",
    baseVersion := some "1", sdk := some "org.freedesktop.Sdk//20.08" }

/-- The per-run context of a `check` over `envSdkVsBase`. -/
def ctxSdkVsBase : ExtCtx :=
  ⟨envSdkVsBase, envSdkVsBase.flathubList, 4, some "org.example.App"⟩

/-- Catalog where an `org.kde.`-named base application targets freedesktop
runtimes: major 5 targeting 20.08 and major 6 targeting 23.08. -/
def envKdeNamedBase : Env :=
  ⟨["org.freedesktop.Platform\t20.08", "org.freedesktop.Platform\t23.08",
    "org.kde.Foo.BaseApp\t5.15\torg.freedesktop.Platform/x86_64/20.08",
    "org.kde.Foo.BaseApp\t6.2\torg.freedesktop.Platform/x86_64/23.08"],
   fun _ => [], some "main"⟩

/-- Manifest using the `org.kde.`-named base application at major 5. -/
def mKdeNamedBase : Manifest :=
  { id := some "org.example.App", runtime := some "org.freedesktop.Platform",
    runtimeVersion := some "20.08", base := some "org.kde.Foo.BaseApp",
    baseVersion := some "5.15" }

/-- A checker state that proposed a runtime bump to 21.08. -/
def stProposedBump : CheckerState := { latestRuntimeVersion := some "21.08" }

/-- A remote whose answers for the colliding pairs `("a", "bc")` and
`("ab", "c")` (both with cache key `"abc"`) differ. -/
def remoteColliding : String → String → Option (List String) := fun n v =>
  if n = "a" ∧ v = "bc" then some ["block-a"]
  else if n = "ab" ∧ v = "c" then some ["block-b"]
  else none

/-- A remote that fails (`CalledProcessError`) for every ref. -/
def remoteAlwaysFailing : String → String → Option (List String) := fun _ _ => none

/-- A submodule list with a nested pair `a` and `a/b` (as `check` builds it). -/
def subsNested : List GitSubmodule :=
  [⟨["a"], false, "a", "", []⟩, ⟨["a", "b"], true, "b", "", []⟩]

/-- The all-or-nothing posture of the spec: whenever the rejection reason is
non-empty, all four bump outputs (`latest_runtime_version`,
`latest_base_version`, `add_extensions`, `add_build_extensions`) are
cleared. -/
def bumpsCleared (st : CheckerState) : Prop :=
  st.cannotUpdateReason ≠ none →
    st.latestRuntimeVersion = none ∧ st.latestBaseVersion = none ∧
    st.addExtensions = [] ∧ st.addBuildExtensions = []

/-- Catalog of an `org.kde.`-named runtime with both a major-5 and a major-6
branch. -/
def kdeLines : List String := ["org.kde.Platform\t5.15", "org.kde.Platform\t6.2"]

/-- The `get_versions` result over `kdeLines` for current version 5.15: the
KDE major filter keeps the proposal at major 5. -/
def kdeRet : GetVersionsRet := ⟨some "5.15", none, "", [("5.15", "5.15")], ""⟩

/-! ## Theorems -/

theorem charLt_self_append {l m : List Char} (h : m ≠ []) : charLt l (l ++ m) = true := by
  induction l with
  | nil =>
    cases m with
    | nil => exact absurd rfl h
    | cons c cs => rfl
  | cons a as2 ih =>
    simp only [List.cons_append, charLt]
    rw [if_neg (lt_irrefl a), if_neg (lt_irrefl a)]
    exact ih

theorem pyStrLt_self_append {s t : String} (h : t ≠ "") : pyStrLt s (s ++ t) = true := by
  unfold pyStrLt
  rw [String.data_append]
  apply charLt_self_append
  intro hn
  apply h
  apply String.ext
  simpa using hn

theorem charLt_irrefl (l : List Char) : charLt l l = false := by
  induction l with
  | nil => rfl
  | cons a as2 ih =>
    simp only [charLt]
    rw [if_neg (lt_irrefl a), if_neg (lt_irrefl a)]
    exact ih

theorem charLt_trans : ∀ {a b c : List Char},
    charLt a b = true → charLt b c = true → charLt a c = true := by
  intro a
  induction a with
  | nil =>
    intro b c hab hbc
    cases b with
    | nil => exact absurd hab (by simp [charLt])
    | cons y ys =>
      cases c with
      | nil => exact absurd hbc (by simp [charLt])
      | cons z zs => rfl
  | cons x xs ih =>
    intro b c hab hbc
    cases b with
    | nil => exact absurd hab (by simp [charLt])
    | cons y ys =>
      cases c with
      | nil => exact absurd hbc (by simp [charLt])
      | cons z zs =>
        simp only [charLt] at hab hbc ⊢
        by_cases hxy : x < y
        · rw [if_pos hxy] at hab
          by_cases hyz : y < z
          · rw [if_pos (hxy.trans hyz)]
          · rw [if_neg hyz] at hbc
            by_cases hzy : z < y
            · rw [if_pos hzy] at hbc
              exact absurd hbc (by simp)
            · have hyzeq : y = z := le_antisymm (not_lt.mp hzy) (not_lt.mp hyz)
              rw [if_pos (hyzeq ▸ hxy)]
        · rw [if_neg hxy] at hab
          by_cases hyx : y < x
          · rw [if_pos hyx] at hab
            exact absurd hab (by simp)
          · rw [if_neg hyx] at hab
            have hxyeq : x = y := le_antisymm (not_lt.mp hyx) (not_lt.mp hxy)
            subst hxyeq
            by_cases hyz : x < z
            · rw [if_pos hyz]
            · rw [if_neg hyz] at hbc ⊢
              by_cases hzy : z < x
              · rw [if_pos hzy] at hbc
                exact absurd hbc (by simp)
              · rw [if_neg hzy] at hbc ⊢
                exact ih hab hbc

theorem charLt_eq_of_not_lt : ∀ {a b : List Char},
    charLt a b = false → charLt b a = false → a = b := by
  intro a
  induction a with
  | nil =>
    intro b h1 _
    cases b with
    | nil => rfl
    | cons y ys => exact absurd h1 (by simp [charLt])
  | cons x xs ih =>
    intro b h1 h2
    cases b with
    | nil => exact absurd h2 (by simp [charLt])
    | cons y ys =>
      simp only [charLt] at h1 h2
      by_cases hxy : x < y
      · rw [if_pos hxy] at h1
        exact absurd h1 (by simp)
      · by_cases hyx : y < x
        · rw [if_pos hyx] at h2
          exact absurd h2 (by simp)
        · have hxyeq : x = y := le_antisymm (not_lt.mp hyx) (not_lt.mp hxy)
          subst hxyeq
          rw [if_neg (lt_irrefl x), if_neg (lt_irrefl x)] at h1 h2
          rw [ih h1 h2]

theorem pyStrLt_irrefl (s : String) : pyStrLt s s = false := charLt_irrefl s.data

theorem pyStrLt_trans {a b c : String} (h1 : pyStrLt a b = true)
    (h2 : pyStrLt b c = true) : pyStrLt a c = true :=
  charLt_trans h1 h2

theorem pyStrLt_eq_of_not_lt {a b : String} (h1 : pyStrLt a b = false)
    (h2 : pyStrLt b a = false) : a = b :=
  String.ext (charLt_eq_of_not_lt h1 h2)

theorem joinComps_cons_cons (c d : String) (rest : List String) :
    joinComps (c :: d :: rest) = c ++ "/" ++ joinComps (d :: rest) := rfl

theorem joinComps_append (p r : List String) (hp : p ≠ []) (hr : r ≠ []) :
    joinComps (p ++ r) = joinComps p ++ ("/" ++ joinComps r) := by
  induction p with
  | nil => exact absurd rfl hp
  | cons c cs ih =>
    cases cs with
    | nil =>
      cases r with
      | nil => exact absurd rfl hr
      | cons d ds => simp [joinComps, joinComps_cons_cons, String.append_assoc]
    | cons d ds =>
      have h2 := ih (by simp)
      simp only [List.cons_append] at h2 ⊢
      rw [joinComps_cons_cons, h2, joinComps_cons_cons]
      simp [String.append_assoc]

theorem joinComps_lt_of_proper (p r : List String) (hp : p ≠ []) (hr : r ≠ []) :
    pyStrLt (joinComps p) (joinComps (p ++ r)) = true := by
  rw [joinComps_append p r hp hr]
  apply pyStrLt_self_append
  intro h
  have h2 := congrArg String.data h
  simp [String.data_append] at h2

theorem commonPathComps_eq_self_iff (a b : List String) :
    commonPathComps a b = a ↔ a <+: b := by
  induction a generalizing b with
  | nil =>
    constructor
    · intro _; exact List.nil_prefix
    · intro _; cases b <;> rfl
  | cons x xs ih =>
    cases b with
    | nil => simp [commonPathComps]
    | cons y ys =>
      by_cases hxy : x = y
      · subst hxy
        have hstep : commonPathComps (x :: xs) (x :: ys) = x :: commonPathComps xs ys := by
          simp [commonPathComps]
        rw [hstep]
        constructor
        · intro h
          have h2 : commonPathComps xs ys = xs := by injection h
          exact List.cons_prefix_cons.mpr ⟨rfl, (ih ys).mp h2⟩
        · intro hp
          have h2 := (List.cons_prefix_cons.mp hp).2
          rw [(ih ys).mpr h2]
      · have hstep : commonPathComps (x :: xs) (y :: ys) = [] := by
          simp [commonPathComps, hxy]
        rw [hstep]
        constructor
        · intro h; exact absurd h.symm (by simp)
        · intro hp; exact absurd (List.cons_prefix_cons.mp hp).1 hxy

theorem maxByPath_spec (cur : GitSubmodule) (l : List GitSubmodule) :
    maxByPath cur l ∈ cur :: l ∧
      ∀ x ∈ cur :: l,
        pyStrLt (joinComps (maxByPath cur l).path) (joinComps x.path) = false := by
  induction l generalizing cur with
  | nil =>
    refine ⟨List.mem_singleton.mpr rfl, ?_⟩
    intro x hx
    rw [List.mem_singleton] at hx
    subst hx
    exact pyStrLt_irrefl _
  | cons y ys ih =>
    simp only [maxByPath]
    by_cases hc : pyStrLt (joinComps cur.path) (joinComps y.path) = true
    · rw [if_pos hc]
      obtain ⟨hmem, hmax⟩ := ih y
      refine ⟨List.mem_cons_of_mem cur hmem, ?_⟩
      intro x hx
      rcases List.mem_cons.mp hx with rfl | hx2
      · rw [Bool.eq_false_iff]
        intro habs
        have h2 := hmax y (List.mem_cons_self y ys)
        rw [pyStrLt_trans habs hc] at h2
        exact Bool.noConfusion h2
      · exact hmax x hx2
    · rw [if_neg hc]
      have hcf : pyStrLt (joinComps cur.path) (joinComps y.path) = false :=
        Bool.not_eq_true _ ▸ (by simpa using hc)
      obtain ⟨hmem, hmax⟩ := ih cur
      refine ⟨?_, ?_⟩
      · rcases List.mem_cons.mp hmem with h | h
        · exact List.mem_cons.mpr (Or.inl h)
        · exact List.mem_cons.mpr (Or.inr (List.mem_cons.mpr (Or.inr h)))
      · intro x hx
        rcases List.mem_cons.mp hx with rfl | hx2
        · exact hmax x (List.mem_cons_self x ys)
        · rcases List.mem_cons.mp hx2 with rfl | hx3
          · rw [Bool.eq_false_iff]
            intro habs
            have hmc := hmax cur (List.mem_cons_self cur ys)
            by_cases hyc : pyStrLt (joinComps x.path) (joinComps cur.path) = true
            · rw [pyStrLt_trans habs hyc] at hmc
              exact Bool.noConfusion hmc
            · have hycf : pyStrLt (joinComps x.path) (joinComps cur.path) = false := by
                simpa using hyc
              have heq := pyStrLt_eq_of_not_lt hcf hycf
              rw [← heq] at habs
              rw [habs] at hmc
              exact Bool.noConfusion hmc
          · exact hmax x (List.mem_cons_of_mem cur hx3)

theorem collectMatches_eq (top mp : List String) :
    ∀ (subs : List GitSubmodule) (found : List GitSubmodule),
      collectMatches top mp subs = some found →
      (∀ s ∈ subs, s.path ≠ []) ∧
        found = subs.filter
          (fun s => decide (commonPathComps (top ++ s.path) mp = top ++ s.path)) := by
  intro subs
  induction subs with
  | nil =>
    intro found h
    unfold collectMatches at h
    have h2 : ([] : List GitSubmodule) = found := Option.some.inj h
    subst h2
    exact ⟨by simp, by simp⟩
  | cons sub rest ih =>
    intro found h
    simp only [collectMatches] at h
    by_cases hp : sub.path = []
    · rw [if_pos hp] at h
      exact Option.noConfusion h
    · rw [if_neg hp] at h
      simp only [Option.pure_def, Option.bind_eq_bind, Option.bind_eq_some] at h
      obtain ⟨tail, htail, hfound⟩ := h
      obtain ⟨hne, hfilter⟩ := ih tail htail
      simp only [Option.some.injEq] at hfound
      constructor
      · intro s hs
        rcases List.mem_cons.mp hs with rfl | hs2
        · exact hp
        · exact hne s hs2
      · rw [← hfound, hfilter, List.filter_cons]
        by_cases hm : commonPathComps (top ++ sub.path) mp = top ++ sub.path
        · rw [if_pos (by simpa using hm), if_pos (by simpa using hm)]
        · rw [if_neg (by simpa using hm), if_neg (by simpa using hm)]

/-- C2: the claim says `check` invoked with `is_app == false` returns
immediately with no proposals and no catalog access.  In the source the
facade passes `is_app` into `check`'s `remote_output` parameter: with
`is_app = False` the falsy value triggers the remote catalog fetch and the
check runs to completion proposing a runtime bump, and with `is_app = True`
the truthy boolean is iterated as the catalog and `check` raises
`TypeError`. -/
theorem is_app_false_fetches_catalog_and_proposes :
    (SpecialChecker_runtime_check envFdoUpdate 4 mFdoApp false).map
        (fun p => (p.2.fetchedCatalog, p.2.branchLockReturn, p.1.latestRuntimeVersion)) =
      some (true, false, some "21.08") ∧
    SpecialChecker_runtime_check envFdoUpdate 4 mFdoApp true = none := by
  constructor <;> rfl

/-- C1 counterexample: a completed `check` on the locked branch
`branch/20.08` with a populated `add-extensions` mapping ends with a
non-empty `cannot_update_reason` while `add_extensions` is non-empty — the
branch-lock step sets the reason without clearing the bump outputs, refuting
the claimed invariant. -/
theorem check_reason_nonempty_with_nonempty_add_extensions :
    (RuntimeChecker_check envLockedBranch 4 mWithAddExtension RemoteArg.defaultEmpty).map
        (fun p => (p.1.cannotUpdateReason.isSome, p.1.addExtensions.isEmpty, p.2.branchLockReturn)) =
      some (true, false, true) := by
  rfl

/-- C6 counterexample: with the active git branch exactly `branch/`, the
branch name starts with `branch/` yet the short-circuit is NOT entered —
`runtime_from_branch` returns the falsy `""`, so `check` continues (and
consults the remote catalog) although it already published the branch-lock
reason; this refutes the claimed "if and only if". -/
theorem branch_lock_not_entered_on_bare_prefix :
    pyTake "branch/" 7 = "branch/" ∧
    (RuntimeChecker_check envBareBranchPrefix 4 mFdoCurrent RemoteArg.defaultEmpty).map
        (fun p => (p.2.branchLockReturn, p.2.fetchedCatalog, p.1.cannotUpdateReason.isSome)) =
      some (false, true, true) := by
  constructor <;> rfl

/-- C7 counterexample: a completed `check` in which the compatibility gate
set `cannot_update_reason` ("could not find matching base ...") and the
explicit 3-part SDK's freedesktop target matches the runtime's: `latest_sdk`
is recorded, but the reason is NOT cleared — refuting the clause "clears any
cannot_update_reason that was set by the preceding compatibility-gate
step". -/
theorem sdk_match_does_not_clear_reason :
    (RuntimeChecker_check envSdkVsBase 4 mSdkVsBase RemoteArg.defaultEmpty).map
        (fun p => (p.1.latestSdk, p.1.cannotUpdateReason.isSome)) =
      some (some "20.08", true) := by
  rfl

/-- C8 counterexample: a ref whose NAME contains `org.kde.`
(`org.kde.Foo.BaseApp`, current major 5) is proposed the base bump `6.2`
with a different major version, because the base-side KDE filter keys on the
current base's declared target (`org.freedesktop.Platform/...`), not on the
base's name — refuting the claim for name-matching refs. -/
theorem kde_named_base_major_bump_proposed :
    pyIn "org.kde." "org.kde.Foo.BaseApp" = true ∧
    (RuntimeChecker_check envKdeNamedBase 4 mKdeNamedBase RemoteArg.defaultEmpty).map
        (fun p => (p.1.latestBaseVersion, p.1.cannotUpdateReason.isSome)) =
      some (some "6.2", false) := by
  constructor <;> rfl

/-- C4: the claim says a hash pair is recorded only when both hashes are
nonempty, and a module missing from the updated tree (empty `updated_hash`)
is skipped.  Evaluating `_check_module_hash` at such an input shows the
module IS recorded with the empty updated hash: the `if not current_hash or
not updated_hash` guard only logs and does not skip, contradicting both the
spec and the guard's own log message. -/
theorem check_module_hash_records_pair_with_empty_updated_hash :
    check_module_hash (some "aa11") none "deadbeef" "modules/foo.json"
        ⟨["sub"], false, "sub", "", []⟩ =
      some ⟨["sub"], false, "sub", "deadbeef", [("modules/foo.json", ("aa11", ""))]⟩ := by
  rfl

/-- C9: `update` builds exactly the `runtime-version` / `base-version`
changes and `dump_manifest` leaves every other manifest field unchanged
(the frame part of the claim holds), but `update` returns `None`, not the
claimed empty list — so the facade's `submodule_changes + runtime_changes`
raises `TypeError`. -/
theorem update_returns_none_and_facade_concat_crashes :
    RuntimeChecker_update stProposedBump =
      ⟨[("runtime-version", "21.08")], true, none⟩ ∧
    SpecialChecker_update [] (RuntimeChecker_update stProposedBump) = none ∧
    dump_manifest (RuntimeChecker_update stProposedBump).changes
        [("runtime", "org.freedesktop.Platform"), ("runtime-version", "20.08"),
         ("sdk", "org.freedesktop.Sdk")] =
      [("runtime", "org.freedesktop.Platform"), ("runtime-version", "21.08"),
       ("sdk", "org.freedesktop.Sdk")] := by
  refine ⟨rfl, rfl, rfl⟩

/-- C3 counterexample: the metadata cache key is the plain concatenation
`name + version`, so the distinct pairs `("a", "bc")` and `("ab", "c")`
collide on key `"abc"`: after fetching metadata for `("a", "bc")`, the call
for `("ab", "c")` is served the block cached for the other pair (and never
fetches its own) — refuting "keyed by `name//version`" and "no call ever
returns the block cached for a different pair". -/
theorem get_ref_metadata_cache_key_collision :
    (get_ref_metadataS remoteColliding [] "a" "bc").1 = ["block-a"] ∧
    remoteColliding "ab" "c" = some ["block-b"] ∧
    (get_ref_metadataS remoteColliding
        (get_ref_metadataS remoteColliding [] "a" "bc").2.1 "ab" "c").1 = ["block-a"] ∧
    (get_ref_metadataS remoteColliding
        (get_ref_metadataS remoteColliding [] "a" "bc").2.1 "ab" "c").2.2 = false := by
  refine ⟨rfl, rfl, rfl, rfl⟩
theorem dictGet?_dictInsert_self {α : Type} (l : List (String × α)) (k : String) (v : α) :
    dictGet? (dictInsert k v l) k = some v := by
  induction l with
  | nil => simp [dictInsert, dictGet?]
  | cons p rest ih =>
    obtain ⟨k', v'⟩ := p
    by_cases h : k' = k
    · simp [dictInsert, h, dictGet?]
    · simp only [dictInsert, if_neg h, dictGet?]
      exact ih

theorem dictGet?_dictInsert_ne {α : Type} (l : List (String × α)) (k q : String) (v : α)
    (h : q ≠ k) : dictGet? (dictInsert k v l) q = dictGet? l q := by
  induction l with
  | nil => simp [dictInsert, dictGet?, Ne.symm h]
  | cons p rest ih =>
    obtain ⟨k', v'⟩ := p
    by_cases h2 : k' = k
    · subst h2
      simp only [dictInsert, if_pos rfl, dictGet?]
      rw [if_neg (Ne.symm h), if_neg (Ne.symm h)]
    · simp only [dictInsert, if_neg h2, dictGet?]
      by_cases h3 : k' = q
      · rw [if_pos h3, if_pos h3]
      · rw [if_neg h3, if_neg h3]
        exact ih

theorem dictGet?_mem {α : Type} {l : List (String × α)} {k : String} {v : α}
    (h : dictGet? l k = some v) : (k, v) ∈ l := by
  induction l with
  | nil => exact absurd h (by simp [dictGet?])
  | cons p rest ih =>
    obtain ⟨k', v'⟩ := p
    simp only [dictGet?] at h
    by_cases h2 : k' = k
    · rw [if_pos h2] at h
      have h3 := Option.some.inj h
      subst h2
      subst h3
      exact List.mem_cons_self _ _
    · rw [if_neg h2] at h
      exact List.mem_cons_of_mem _ (ih h)

/-- C7 (amended): the SDK side-check records `latest_sdk` and changes no
other attribute — in particular a `cannot_update_reason` set by the
preceding compatibility gate is NOT cleared (the claim's clearing clause is
refuted by `sdk_match_does_not_clear_reason`). -/
theorem sdk_side_check_only_sets_latest_sdk
    (ctx : ExtCtx) (sdk runtime lrv : PyStr) (st st' : CheckerState)
    (h : sdk_side_check ctx sdk runtime lrv st = some st') :
    st' = { st with latestSdk := st'.latestSdk } := by
  cases sdk with
  | none =>
    simp only [sdk_side_check] at h
    have h2 : st = st' := Option.some.inj h
    subst h2
    rfl
  | some s =>
    simp only [sdk_side_check] at h
    by_cases hc : s ≠ "" ∧ (pySplitChar '/' s).length = 3 ∧ (pySplitChar '/' s).getD 2 "" ≠ ""
    · rw [if_pos hc] at h
      simp only [Option.pure_def, Option.bind_eq_bind, Option.bind_eq_some] at h
      obtain ⟨p0, hp0, h⟩ := h
      obtain ⟨sdkData, hsd, h⟩ := h
      obtain ⟨a, ha, h⟩ := h
      obtain ⟨b, hb, h⟩ := h
      by_cases hab : a = b
      · rw [if_pos hab] at h
        have h2 := Option.some.inj h
        subst h2
        rfl
      · rw [if_neg hab] at h
        have h2 := Option.some.inj h
        subst h2
        rfl
    · rw [if_neg hc] at h
      have h2 : st = st' := Option.some.inj h
      subst h2
      rfl

/-- Witness for C7's amended theorem at a concrete run in which the SDK
side-check does record a new `latest_sdk`. -/
theorem sdk_side_check_only_sets_latest_sdk_witness :
    ({ latestSdk := some "20.08" } : CheckerState) =
      { ({} : CheckerState) with
        latestSdk := ({ latestSdk := some "20.08" } : CheckerState).latestSdk } :=
  sdk_side_check_only_sets_latest_sdk ctxSdkVsBase (some "org.freedesktop.Sdk//20.08")
    (some "org.freedesktop.Platform") (some "20.08") {} { latestSdk := some "20.08" }
    (by rfl)

theorem getExtensionDictGo_append (pre rest : List (String × Option ExtPointVal))
    (acc : ExtDict) (h : ∀ p ∈ pre, p.2.isSome) :
    getExtensionDictGo (pre ++ rest) acc = getExtensionDictGo rest (getExtensionDictGo pre acc) := by
  induction pre generalizing acc with
  | nil => rfl
  | cons p ps ih =>
    obtain ⟨pt, v?⟩ := p
    cases v? with
    | none => exact absurd (h (pt, none) (List.mem_cons_self _ _)) (by simp)
    | some v =>
      simp only [List.cons_append, getExtensionDictGo]
      exact ih _ (fun q hq => h q (List.mem_cons_of_mem _ hq))

theorem getExtensionDictGo_keys (l : List (String × Option ExtPointVal)) (acc : ExtDict)
    (q : String) (hl : ∀ p ∈ l, p.1 ≠ q) (hacc : dictGet? acc q = none) :
    dictGet? (getExtensionDictGo l acc) q = none := by
  induction l generalizing acc with
  | nil => exact hacc
  | cons p ps ih =>
    obtain ⟨pt, v?⟩ := p
    cases v? with
    | none => exact hacc
    | some v =>
      simp only [getExtensionDictGo]
      apply ih _ (fun r hr => hl r (List.mem_cons_of_mem _ hr))
      rw [dictGet?_dictInsert_ne _ _ _ _ (Ne.symm (hl (pt, some v) (List.mem_cons_self _ _)))]
      exact hacc

/-- C10: when an extension point under `add-extensions` /
`add-build-extensions` carries an empty or missing value mapping,
`get_extension_dict` returns the dict built so far, so every extension
point after it in the same category is silently excluded from the result
(and hence from all later extension validation). -/
theorem get_extension_dict_stops_at_falsy_value
    (pre post : List (String × Option ExtPointVal)) (pt : String)
    (hpre : ∀ p ∈ pre, p.2.isSome) :
    get_extension_dict (some (pre ++ (pt, none) :: post)) = get_extension_dict (some pre) ∧
    (∀ q, (∀ p ∈ pre, p.1 ≠ q) →
      dictGet? (get_extension_dict (some (pre ++ (pt, none) :: post))) q = none) := by
  have h1 : get_extension_dict (some (pre ++ (pt, none) :: post)) = getExtensionDictGo pre [] := by
    show getExtensionDictGo (pre ++ (pt, none) :: post) [] = _
    rw [getExtensionDictGo_append pre ((pt, none) :: post) [] hpre]
    rfl
  constructor
  · rw [h1]
    rfl
  · intro q hq
    rw [h1]
    exact getExtensionDictGo_keys pre [] q hq rfl

/-- Witness for C10's theorem: with `org.b.Ext` carrying an empty value
mapping, the later point `org.c.Ext` is absent from the result. -/
theorem get_extension_dict_stops_at_falsy_value_witness :
    get_extension_dict (some [("org.a.Ext", some ⟨some "1", none⟩), ("org.b.Ext", none),
        ("org.c.Ext", some ⟨some "2", none⟩)]) =
      get_extension_dict (some [("org.a.Ext", some ⟨some "1", none⟩)]) ∧
    dictGet? (get_extension_dict (some [("org.a.Ext", some ⟨some "1", none⟩), ("org.b.Ext", none),
        ("org.c.Ext", some ⟨some "2", none⟩)])) "org.c.Ext" = none :=
  let h := get_extension_dict_stops_at_falsy_value
    [("org.a.Ext", some ⟨some "1", none⟩)] [("org.c.Ext", some ⟨some "2", none⟩)]
    "org.b.Ext" (by intro p hp; simp at hp; subst hp; rfl)
  ⟨h.1, h.2 "org.c.Ext" (by intro p hp; simp at hp; subst hp; decide)⟩

/-- C3 (amended): `get_ref_metadata`'s memoisation, with the cache key being
the plain concatenation `name + version` (not `name//version`; distinct
pairs with equal concatenations share an entry, see
`get_ref_metadata_cache_key_collision`): a hit returns the cached block with
no fetch; a miss fetches once, memoises the result under the concatenated
key — the empty list on tool failure — and a later call for the same pair is
served from the cache without re-invoking the tool. -/
theorem get_ref_metadata_memoisation
    (remote : String → String → Option (List String))
    (cache : List (String × List String)) (name version : String) :
    (∀ block, dictGet? cache (name ++ version) = some block →
      get_ref_metadataS remote cache name version = (block, cache, false)) ∧
    (dictGet? cache (name ++ version) = none →
      (get_ref_metadataS remote cache name version).2.2 = true ∧
      (get_ref_metadataS remote cache name version).2.1 =
        dictInsert (name ++ version) (get_ref_metadataS remote cache name version).1 cache ∧
      (remote name version = none →
        (get_ref_metadataS remote cache name version).1 = [])) ∧
    ((get_ref_metadataS remote (get_ref_metadataS remote cache name version).2.1
        name version).1 = (get_ref_metadataS remote cache name version).1 ∧
      (get_ref_metadataS remote (get_ref_metadataS remote cache name version).2.1
        name version).2.2 = false) := by
  refine ⟨?_, ?_, ?_⟩
  · intro block hb
    simp [get_ref_metadataS, hb]
  · intro hmiss
    cases hr : remote name version with
    | none => simp [get_ref_metadataS, hmiss, hr]
    | some lines => simp [get_ref_metadataS, hmiss, hr]
  · cases hc : dictGet? cache (name ++ version) with
    | some block => simp [get_ref_metadataS, hc]
    | none =>
      cases hr : remote name version with
      | none => simp [get_ref_metadataS, hc, hr, dictGet?_dictInsert_self]
      | some lines => simp [get_ref_metadataS, hc, hr, dictGet?_dictInsert_self]

/-- Witness for C3's amended theorem: a cache miss with a failing tool
fetches once, memoises the empty block under the concatenated key, and
returns the empty list. -/
theorem get_ref_metadata_memoisation_witness :
    (get_ref_metadataS remoteAlwaysFailing [] "org.example.Ref" "1").2.2 = true ∧
    (get_ref_metadataS remoteAlwaysFailing [] "org.example.Ref" "1").2.1 =
      dictInsert ("org.example.Ref" ++ "1")
        (get_ref_metadataS remoteAlwaysFailing [] "org.example.Ref" "1").1 [] ∧
    (get_ref_metadataS remoteAlwaysFailing [] "org.example.Ref" "1").1 = [] :=
  let h := (get_ref_metadata_memoisation remoteAlwaysFailing [] "org.example.Ref" "1").2.1 (by rfl)
  ⟨h.1, h.2.1, h.2.2 (by rfl)⟩

theorem kdeFilter_mem {c : String} : ∀ {l l' : List (String × String)},
    kdeFilter (some c) l = some l' → ∀ p ∈ l', pyTake p.2 1 = pyTake c 1 := by
  intro l
  induction l with
  | nil =>
    intro l' h p hp
    simp only [kdeFilter, Option.some.injEq] at h
    subst h
    exact absurd hp (by simp)
  | cons q rest ih =>
    intro l' h p hp
    obtain ⟨k, v⟩ := q
    simp only [kdeFilter, Option.pure_def, Option.bind_eq_bind, Option.some_bind,
      Option.bind_eq_some, Option.some.injEq] at h
    obtain ⟨tail, htail, hl'⟩ := h
    by_cases hcond : pyTake v 1 = pyTake c 1
    · rw [if_pos hcond] at hl'
      subst hl'
      rcases List.mem_cons.mp hp with rfl | hp2
      · exact hcond
      · exact ih htail p hp2
    · rw [if_neg hcond] at hl'
      subst hl'
      exact ih htail p hp

theorem gvLatestRuntime_spec {rv : PyStr} {rv1 : List (String × String)}
    {lr : PyStr} {older : List (String × String)}
    (h : gvLatestRuntime rv rv1 = some (lr, older)) :
    lr = rv ∨ ∃ p ∈ rv1, lr = some p.2 := by
  cases rv1 with
  | nil =>
    simp only [gvLatestRuntime, Option.some.injEq, Prod.mk.injEq] at h
    exact Or.inl h.1.symm
  | cons q rest =>
    obtain ⟨k0, kv⟩ := q
    simp only [gvLatestRuntime, Option.pure_def, Option.bind_eq_bind,
      Option.bind_eq_some, Option.some.injEq, Prod.mk.injEq] at h
    obtain ⟨lv, hlv, hlr, _⟩ := h
    exact Or.inr ⟨(pyMaxFold k0 (rest.map (fun p => p.1)), lv), dictGet?_mem hlv, hlr.symm⟩

theorem gvLatestBase_spec {base bv : PyStr} {bv1 : List (String × String)}
    {lb : PyStr} {lbt : String}
    (h : gvLatestBase base bv bv1 = some (lb, lbt)) :
    lb = bv ∨ ∃ p ∈ bv1, lb = some p.2 := by
  unfold gvLatestBase at h
  by_cases htb : pyTruthy base = true
  · rw [if_pos htb] at h
    cases bv1 with
    | nil =>
      simp only [Option.some.injEq, Prod.mk.injEq] at h
      exact Or.inl h.1.symm
    | cons q rest =>
      obtain ⟨k0, kv⟩ := q
      simp only [Option.pure_def, Option.bind_eq_bind, Option.bind_eq_some,
        Option.some.injEq, Prod.mk.injEq] at h
      obtain ⟨lv, hlv, hlb, _⟩ := h
      exact Or.inr ⟨(pyMaxFold k0 (rest.map (fun p => p.1)), lv), dictGet?_mem hlv, hlb.symm⟩
  · rw [if_neg htb] at h
    simp only [Option.some.injEq, Prod.mk.injEq] at h
    exact Or.inl h.1.symm

theorem gv_tail_spec (rv base bv : PyStr) (x y : List (String × String))
    (gbt : String) (ret : GetVersionsRet)
    (h : ((gvLatestRuntime rv x).bind fun a =>
        (gvLatestBase base bv y).bind fun b =>
          some ⟨a.1, b.1, b.2, a.2, gbt⟩) = some ret) :
    (ret.latestRuntimeVersion = rv ∨ ∃ p ∈ x, ret.latestRuntimeVersion = some p.2) ∧
    (ret.latestBaseVersion = bv ∨ ∃ p ∈ y, ret.latestBaseVersion = some p.2) ∧
    ret.givenBaseTarget = gbt := by
  cases hlr : gvLatestRuntime rv x with
  | none => rw [hlr] at h; exact absurd h (by simp)
  | some lrp =>
  obtain ⟨lr, older⟩ := lrp
  rw [hlr] at h
  simp only [Option.some_bind] at h
  cases hlb : gvLatestBase base bv y with
  | none => rw [hlb] at h; exact absurd h (by simp)
  | some lbp =>
  obtain ⟨lb, lbt⟩ := lbp
  rw [hlb] at h
  simp only [Option.some_bind] at h
  have hret := Option.some.inj h
  subst hret
  refine ⟨?_, ?_, rfl⟩
  · rcases gvLatestRuntime_spec hlr with heq | ⟨p, hpmem, heq⟩
    · exact Or.inl heq
    · exact Or.inr ⟨p, hpmem, heq⟩
  · rcases gvLatestBase_spec hlb with heq | ⟨p, hpmem, heq⟩
    · exact Or.inl heq
    · exact Or.inr ⟨p, hpmem, heq⟩

/-- C8 (amended): the KDE major filter applies to the runtime when the
runtime NAME contains `org.kde.`, and to the base when the declared target
of the CURRENT base version (`given_base_target`) contains `org.kde.`; in
those cases no version whose first character differs from the current one is
returned by `get_versions` (a base whose name merely contains `org.kde.` is
not filtered — see `kde_named_base_major_bump_proposed`). -/
theorem kde_major_filter_scope
    (lines : List String) (r : String) (base runtimeVersion baseVersion : PyStr)
    (ret : GetVersionsRet)
    (h : get_versions lines (some r) base runtimeVersion baseVersion = some ret) :
    (pyIn "org.kde." r = true →
      ∀ rvs v, runtimeVersion = some rvs → ret.latestRuntimeVersion = some v →
        pyTake v 1 = pyTake rvs 1) ∧
    (pyIn "org.kde." ret.givenBaseTarget = true →
      ∀ bvs v, baseVersion = some bvs → ret.latestBaseVersion = some v →
        pyTake v 1 = pyTake bvs 1) := by
  unfold get_versions at h
  cases hscan : gvScan (some r) base baseVersion lines [] [] "" with
  | none => rw [hscan] at h; exact absurd h (by simp)
  | some triple =>
  obtain ⟨rv0, bv0, gbt⟩ := triple
  rw [hscan] at h
  simp only [Option.pure_def, Option.bind_eq_bind, Option.some_bind] at h
  by_cases hr : pyIn "org.kde." r = true
  · rw [if_pos hr] at h
    cases hrv1 : kdeFilter runtimeVersion rv0 with
    | none => rw [hrv1] at h; exact absurd h (by simp)
    | some rv1 =>
    rw [hrv1] at h
    simp only [Option.some_bind] at h
    by_cases hb : pyIn "org.kde." gbt = true
    · rw [if_pos hb] at h
      cases hbv1 : kdeFilter baseVersion bv0 with
      | none => rw [hbv1] at h; exact absurd h (by simp)
      | some bv1 =>
      rw [hbv1] at h
      simp only [Option.some_bind] at h
      obtain ⟨hrun, hbas, hgbt⟩ := gv_tail_spec runtimeVersion base baseVersion rv1 bv1 gbt ret h
      constructor
      · intro _ rvs v hrv hlv
        subst hrv
        rcases hrun with heq | ⟨p, hpmem, heq⟩
        · rw [heq] at hlv; rw [Option.some.inj hlv]
        · rw [heq] at hlv; rw [← Option.some.inj hlv]; exact kdeFilter_mem hrv1 p hpmem
      · intro _ bvs v hbv hlb
        subst hbv
        rcases hbas with heq | ⟨p, hpmem, heq⟩
        · rw [heq] at hlb; rw [Option.some.inj hlb]
        · rw [heq] at hlb; rw [← Option.some.inj hlb]; exact kdeFilter_mem hbv1 p hpmem
    · rw [if_neg hb] at h
      obtain ⟨hrun, hbas, hgbt⟩ := gv_tail_spec runtimeVersion base baseVersion rv1 bv0 gbt ret h
      constructor
      · intro _ rvs v hrv hlv
        subst hrv
        rcases hrun with heq | ⟨p, hpmem, heq⟩
        · rw [heq] at hlv; rw [Option.some.inj hlv]
        · rw [heq] at hlv; rw [← Option.some.inj hlv]; exact kdeFilter_mem hrv1 p hpmem
      · intro hkdeb bvs v hbv hlb
        rw [hgbt] at hkdeb
        exact absurd hkdeb hb
  · rw [if_neg hr] at h
    by_cases hb : pyIn "org.kde." gbt = true
    · rw [if_pos hb] at h
      cases hbv1 : kdeFilter baseVersion bv0 with
      | none => rw [hbv1] at h; exact absurd h (by simp)
      | some bv1 =>
      rw [hbv1] at h
      simp only [Option.some_bind] at h
      obtain ⟨hrun, hbas, hgbt⟩ := gv_tail_spec runtimeVersion base baseVersion rv0 bv1 gbt ret h
      constructor
      · intro hkde _ _ _ _
        exact absurd hkde hr
      · intro _ bvs v hbv hlb
        subst hbv
        rcases hbas with heq | ⟨p, hpmem, heq⟩
        · rw [heq] at hlb; rw [Option.some.inj hlb]
        · rw [heq] at hlb; rw [← Option.some.inj hlb]; exact kdeFilter_mem hbv1 p hpmem
    · rw [if_neg hb] at h
      obtain ⟨hrun, hbas, hgbt⟩ := gv_tail_spec runtimeVersion base baseVersion rv0 bv0 gbt ret h
      constructor
      · intro hkde _ _ _ _
        exact absurd hkde hr
      · intro hkdeb bvs v hbv hlb
        rw [hgbt] at hkdeb
        exact absurd hkdeb hb

/-- Witness for C8's amended theorem: over an `org.kde.Platform` catalog
carrying majors 5 and 6, the proposal for a major-5 app keeps major 5. -/
theorem kde_major_filter_scope_witness :
    get_versions kdeLines (some "org.kde.Platform") none (some "5.15") none = some kdeRet ∧
    pyTake "5.15" 1 = pyTake "5.15" 1 :=
  ⟨by rfl,
   (kde_major_filter_scope kdeLines "org.kde.Platform" none (some "5.15") none kdeRet
      (by rfl)).1 (by rfl) "5.15" "5.15" rfl (by rfl)⟩

/-- C5: for every module path lying inside at least one submodule,
`_module_in_submodule` returns a matching submodule whose path is an
ancestor of the module path and is the deepest such — every other matching
submodule's path is an ancestor (list prefix) of the returned one's; when no
submodule path is an ancestor it returns the empty-path submodule.
(Paths are component lists; `submodule_dir == commonpath([submodule_dir,
module_path])` is equivalent to the prefix relation, and Python's `max` over
the matching path strings picks the deepest since ancestors of one path form
a chain.) -/
theorem module_in_submodule_deepest_ancestor
    (top mp : List String) (subs : List GitSubmodule) (r : GitSubmodule)
    (h : module_in_submodule top subs mp = some r) :
    ((∃ s ∈ subs, (top ++ s.path) <+: mp) →
       r ∈ subs ∧ (top ++ r.path) <+: mp ∧
         ∀ s ∈ subs, (top ++ s.path) <+: mp → s.path <+: r.path) ∧
    ((∀ s ∈ subs, ¬ (top ++ s.path) <+: mp) → r = ⟨[], false, "", "", []⟩) := by
  unfold module_in_submodule at h
  simp only [Option.pure_def, Option.bind_eq_bind, Option.bind_eq_some] at h
  obtain ⟨found, hcm, hsel⟩ := h
  obtain ⟨hne, hfilter⟩ := collectMatches_eq top mp subs found hcm
  have hmemfound : ∀ s, s ∈ found ↔ s ∈ subs ∧ (top ++ s.path) <+: mp := by
    intro s
    rw [hfilter, List.mem_filter]
    constructor
    · rintro ⟨h1, h2⟩
      exact ⟨h1, (commonPathComps_eq_self_iff _ _).mp (by simpa using h2)⟩
    · rintro ⟨h1, h2⟩
      exact ⟨h1, by simpa using (commonPathComps_eq_self_iff _ _).mpr h2⟩
  constructor
  · intro hex
    obtain ⟨s0, hs0, hs0p⟩ := hex
    have hs0f : s0 ∈ found := (hmemfound s0).mpr ⟨hs0, hs0p⟩
    cases hfound : found with
    | nil => rw [hfound] at hs0f; exact absurd hs0f (by simp)
    | cons f fs =>
      rw [hfound] at hsel
      simp only [Option.some.injEq] at hsel
      obtain ⟨hmem, hmax⟩ := maxByPath_spec f fs
      rw [← hfound] at hmem hmax
      rw [hsel] at hmem hmax
      have hrfound : r ∈ found := hmem
      have hrprop := (hmemfound _).mp hrfound
      refine ⟨hrprop.1, hrprop.2, ?_⟩
      intro s hs hsp
      have hsf : s ∈ found := (hmemfound s).mpr ⟨hs, hsp⟩
      rcases List.prefix_or_prefix_of_prefix hsp hrprop.2 with hpre | hpre
      · exact (List.prefix_append_right_inj top).mp hpre
      · have hpre2 : r.path <+: s.path := (List.prefix_append_right_inj top).mp hpre
        obtain ⟨t, ht⟩ := hpre2
        cases htnil : t with
        | nil =>
          rw [htnil] at ht
          simp at ht
          rw [ht]
        | cons u us =>
          exfalso
          have htrue := joinComps_lt_of_proper r.path t (hne _ hrprop.1)
            (by rw [htnil]; simp)
          rw [ht] at htrue
          have hfalse := hmax s hsf
          rw [hfalse] at htrue
          exact Bool.noConfusion htrue
  · intro hall
    have hfe : found = [] := by
      cases hfound : found with
      | nil => rfl
      | cons f fs =>
        exfalso
        have hf : f ∈ found := by rw [hfound]; exact List.mem_cons_self f fs
        have h2 := (hmemfound f).mp hf
        exact hall f h2.1 h2.2
    rw [hfe] at hsel
    simp only [Option.some.injEq] at hsel
    exact hsel.symm

/-- Witness for C5's theorem on the nested pair `a` ⊂ `a/b` with a module at
`a/b/c/mod.json`: the deeper submodule `a/b` is selected. -/
theorem module_in_submodule_deepest_ancestor_witness :
    (⟨["a", "b"], true, "b", "", []⟩ : GitSubmodule) ∈ subsNested ∧
    (([] : List String) ++ ["a", "b"]) <+: ["a", "b", "c", "mod.json"] ∧
    (["a"] : List String) <+: ["a", "b"] :=
  let h := (module_in_submodule_deepest_ancestor [] ["a", "b", "c", "mod.json"] subsNested
      ⟨["a", "b"], true, "b", "", []⟩ (by rfl)).1
      ⟨⟨["a"], false, "a", "", []⟩, by simp [subsNested], ⟨["b", "c", "mod.json"], rfl⟩⟩
  ⟨h.1, h.2.1, h.2.2 ⟨["a"], false, "a", "", []⟩ (by simp [subsNested]) ⟨["b", "c", "mod.json"], rfl⟩⟩

/-- Updating `found_extension_points` alone preserves the cleared-bumps
invariant. -/
theorem bumpsCleared_fep (st : CheckerState) (fep : List (String × String))
    (h : bumpsCleared st) : bumpsCleared { st with foundExtensionPoints := fep } := h

/-- A state produced by the source's failure pattern (set the reason, clear
both latest versions and both extension dicts) satisfies the invariant. -/
theorem bumpsCleared_clearBumps (reason : List PyStr) (st : CheckerState) :
    bumpsCleared (clearBumps reason st) := fun _ => ⟨rfl, rfl, rfl, rfl⟩

/-- One iteration of the `check_extensions` loop preserves the invariant
"non-empty reason implies all four bump outputs cleared": the only writes are
`found_extension_points` bookkeeping and the clear-all failure pattern. -/
theorem check_extensions_step_preserves
    (ctx : ExtCtx) (rt rv lrv b lbv : PyStr) (ob : Bool)
    (e : String) (acc acc' : List (String × PyStr)) (st st' : CheckerState)
    (h : check_extensions_step ctx rt rv lrv b lbv ob e acc st = some (acc', st'))
    (hc : bumpsCleared st) : bumpsCleared st' := by
  unfold check_extensions_step at h
  split at h
  · exact absurd h (by simp)
  · rename_i r fep' hgev
    simp only [] at h
    split at h
    · split at h
      · exact absurd h (by simp)
      · split at h
        · obtain ⟨_, h2⟩ := Prod.mk.injEq _ _ _ _ |>.mp (Option.some.inj h)
          rw [← h2]; exact bumpsCleared_fep st fep' hc
        · obtain ⟨_, h2⟩ := Prod.mk.injEq _ _ _ _ |>.mp (Option.some.inj h)
          rw [← h2]; exact bumpsCleared_clearBumps _ _
    · split at h
      · split at h
        · exact absurd h (by simp)
        · split at h
          · exact absurd h (by simp)
          · split at h
            · obtain ⟨_, h2⟩ := Prod.mk.injEq _ _ _ _ |>.mp (Option.some.inj h)
              rw [← h2]; exact bumpsCleared_fep st fep' hc
            · obtain ⟨_, h2⟩ := Prod.mk.injEq _ _ _ _ |>.mp (Option.some.inj h)
              rw [← h2]; exact bumpsCleared_clearBumps _ _
      · obtain ⟨_, h2⟩ := Prod.mk.injEq _ _ _ _ |>.mp (Option.some.inj h)
        rw [← h2]; exact bumpsCleared_clearBumps _ _

/-- The whole `check_extensions` loop preserves the cleared-bumps
invariant. -/
theorem check_extensions_go_preserves
    (ctx : ExtCtx) (rt rv lrv b lbv : PyStr) (ob : Bool) :
    ∀ (l : List String) (acc d : List (String × PyStr)) (st st' : CheckerState),
      check_extensions_go ctx rt rv lrv b lbv ob l acc st = some (d, st') →
      bumpsCleared st → bumpsCleared st' := by
  intro l
  induction l with
  | nil =>
    intro acc d st st' h hc
    obtain ⟨_, h2⟩ := Prod.mk.injEq _ _ _ _ |>.mp (Option.some.inj h)
    rw [← h2]; exact hc
  | cons e rest ih =>
    intro acc d st st' h hc
    unfold check_extensions_go at h
    split at h
    · exact absurd h (by simp)
    · rename_i acc2 st3 hstep
      exact ih acc2 d st3 st' h
        (check_extensions_step_preserves ctx rt rv lrv b lbv ob e acc acc2 st st3 hstep hc)

/-- `check`'s first `check_add_extensions` invocation preserves the
cleared-bumps invariant: on failure it performs the full clear-all pattern,
and on success it can only write a non-empty `add_extensions` when the
attribute was non-empty before (impossible under a non-empty reason, where
the invariant says the attribute was `{}` — and `check_add_extensions` of
`{}` returns `{}`). -/
theorem apply_cae_on_add_preserves (ctx : ExtCtx) (rt lrv : PyStr)
    (st st' : CheckerState)
    (h : apply_check_add_extensions_on_add ctx rt lrv st = some st')
    (hc : bumpsCleared st) : bumpsCleared st' := by
  unfold apply_check_add_extensions_on_add at h
  simp only [Option.pure_def, Option.bind_eq_bind, Option.bind_eq_some] at h
  obtain ⟨⟨ext, failed, reason, fep⟩, hcae, h⟩ := h
  simp only [] at h
  cases failed with
  | true =>
    rw [if_pos rfl] at h
    have hst := Option.some.inj h
    subst hst
    exact fun _ => ⟨rfl, rfl, rfl, rfl⟩
  | false =>
    rw [if_neg (by simp)] at h
    have hst := Option.some.inj h
    subst hst
    intro hne
    obtain ⟨h1, h2, h3, h4⟩ := hc hne
    rw [h3] at hcae
    unfold check_add_extensions at hcae
    rw [if_pos rfl] at hcae
    simp only [Option.pure_def, Option.some.injEq, Prod.mk.injEq] at hcae
    exact ⟨h1, h2, hcae.1.symm, h4⟩

/-- `check`'s second `check_add_extensions` invocation (over
`add_build_extensions`) preserves the cleared-bumps invariant, by the same
argument as the first. -/
theorem apply_cae_on_build_preserves (ctx : ExtCtx) (rt lrv : PyStr)
    (st st' : CheckerState)
    (h : apply_check_add_extensions_on_build ctx rt lrv st = some st')
    (hc : bumpsCleared st) : bumpsCleared st' := by
  unfold apply_check_add_extensions_on_build at h
  simp only [Option.pure_def, Option.bind_eq_bind, Option.bind_eq_some] at h
  obtain ⟨⟨ext, failed, reason, fep⟩, hcae, h⟩ := h
  simp only [] at h
  cases failed with
  | true =>
    rw [if_pos rfl] at h
    have hst := Option.some.inj h
    subst hst
    exact fun _ => ⟨rfl, rfl, rfl, rfl⟩
  | false =>
    rw [if_neg (by simp)] at h
    have hst := Option.some.inj h
    subst hst
    intro hne
    obtain ⟨h1, h2, h3, h4⟩ := hc hne
    rw [h4] at hcae
    unfold check_add_extensions at hcae
    rw [if_pos rfl] at hcae
    simp only [Option.pure_def, Option.some.injEq, Prod.mk.injEq] at hcae
    exact ⟨h1, h2, h3, hcae.1.symm⟩

/-- C1 (amended second half): every step of `check_extensions` and of both
`check_add_extensions` invocations that raises `cannot_update_reason` clears
`latest_runtime_version`, `latest_base_version`, `add_extensions` and
`add_build_extensions` in that same step — formally, all these steps preserve
the invariant "non-empty reason implies all four bump outputs cleared".  (The
claim's first half — that the invariant holds after any completed `check` —
is refuted by `check_reason_nonempty_with_nonempty_add_extensions`: the
branch-lock return and the base-compatibility gate set the reason without
clearing `add_extensions`/`add_build_extensions`.) -/
theorem extension_validation_preserves_bumpsCleared :
    (∀ (ctx : ExtCtx) (exts : Option (List String)) (rt rv lrv b lbv : PyStr) (ob : Bool)
       (st : CheckerState) (d : List (String × PyStr)) (st' : CheckerState),
       check_extensions ctx exts rt rv lrv b lbv ob st = some (d, st') →
       bumpsCleared st → bumpsCleared st') ∧
    (∀ (ctx : ExtCtx) (rt lrv : PyStr) (st st' : CheckerState),
       apply_check_add_extensions_on_add ctx rt lrv st = some st' →
       bumpsCleared st → bumpsCleared st') ∧
    (∀ (ctx : ExtCtx) (rt lrv : PyStr) (st st' : CheckerState),
       apply_check_add_extensions_on_build ctx rt lrv st = some st' →
       bumpsCleared st → bumpsCleared st') := by
  refine ⟨?_, apply_cae_on_add_preserves, apply_cae_on_build_preserves⟩
  intro ctx exts rt rv lrv b lbv ob st d st' h hc
  unfold check_extensions at h
  cases exts with
  | none =>
    obtain ⟨_, h2⟩ := Prod.mk.injEq _ _ _ _ |>.mp (Option.some.inj h)
    rw [← h2]; exact hc
  | some l =>
    exact check_extensions_go_preserves ctx rt rv lrv b lbv ob l [] d st st' h hc

/-- Witness for C1's preservation theorem at concrete inputs: an empty
extension category and an empty `add_extensions` dict over a state carrying a
proposed runtime bump and no reason. -/
theorem extension_validation_preserves_bumpsCleared_witness :
    check_extensions ctxSdkVsBase none none none none none none false stProposedBump
        = some ([], stProposedBump)
      ∧ apply_check_add_extensions_on_add ctxSdkVsBase none none stProposedBump
        = some stProposedBump
      ∧ bumpsCleared stProposedBump :=
  ⟨rfl, rfl,
   extension_validation_preserves_bumpsCleared.1 ctxSdkVsBase none none none none none none
     false stProposedBump [] stProposedBump rfl (fun h => absurd rfl h)⟩

/-- C6 (amended): for a completed `check` on a manifest that reaches the
branch-lock gate (a truthy runtime or base), the branch-lock short-circuit is
taken if and only if the current git branch starts with `branch/` AND the
remainder after the prefix is non-empty (`runtime_from_branch` returns
`branch[7:]`, whose truthiness decides the return — the bare branch name
`branch/` sets the reason yet does not short-circuit, refuting the claim's
"iff it starts with branch/" via `branch_lock_not_entered_on_bare_prefix`);
when taken, the catalog is never fetched and the published
`cannot_update_reason` names the branch. -/
theorem branch_lock_shortcircuit_iff (env : Env) (fuel : Nat) (m : Manifest)
    (ro : RemoteArg) (st : CheckerState) (tr : CheckTrace)
    (hr : pyTruthy m.runtime ∨ pyTruthy m.base)
    (h : RuntimeChecker_check env fuel m ro = some (st, tr)) :
    (tr.branchLockReturn = true ↔
      ∃ b, env.gitBranch = some b ∧ pyTake b 7 = "branch/" ∧ pyDrop b 7 ≠ "") ∧
    (tr.branchLockReturn = true →
      tr.fetchedCatalog = false ∧
      ∃ b, env.gitBranch = some b ∧
        st.cannotUpdateReason = some [some branchLockMessage, some b]) := by
  unfold RuntimeChecker_check at h
  simp only [] at h
  split at h
  · exact absurd h (by simp)
  split at h
  · exact absurd h (by simp)
  split at h
  · rename_i hno
    rcases hr with hr | hr
    · exact absurd hr (by simpa using hno.1)
    · exact absurd hr (by simpa using hno.2)
  · cases hrb : runtime_from_branch env.gitBranch (initCheckState m) with
    | mk lock st1 =>
    rw [hrb] at h
    simp only [] at h
    unfold runtime_from_branch at hrb
    cases hgb : env.gitBranch with
    | none =>
      rw [hgb] at hrb
      obtain ⟨hl, hs⟩ := Prod.mk.injEq _ _ _ _ |>.mp hrb
      rw [← hl] at h
      rw [if_neg (by simp [pyTruthy])] at h
      split at h
      · exact absurd h (by simp)
      split at h
      · exact absurd h (by simp)
      · have htr := (Prod.mk.injEq _ _ _ _ |>.mp (Option.some.inj h)).2
        rw [← htr]
        refine ⟨⟨fun hf => absurd hf (by simp), fun hex => ?_⟩,
          fun hf => absurd hf (by simp)⟩
        obtain ⟨b, hb, -, -⟩ := hex
        exact absurd hb (by simp [hgb])
    | some b =>
      rw [hgb] at hrb
      simp only [] at hrb
      by_cases hpre : pyTake b 7 = "branch/"
      · rw [if_pos hpre] at hrb
        obtain ⟨hl, hs⟩ := Prod.mk.injEq _ _ _ _ |>.mp hrb
        by_cases hrem : pyDrop b 7 = ""
        · rw [← hl] at h
          rw [if_neg (by simp [pyTruthy, hrem])] at h
          split at h
          · exact absurd h (by simp)
          split at h
          · exact absurd h (by simp)
          · have htr := (Prod.mk.injEq _ _ _ _ |>.mp (Option.some.inj h)).2
            rw [← htr]
            refine ⟨⟨fun hf => absurd hf (by simp), fun hex => ?_⟩,
              fun hf => absurd hf (by simp)⟩
            obtain ⟨b', hb', hpre', hrem'⟩ := hex
            cases Option.some.inj hb'
            exact absurd hrem hrem'
        · rw [← hl] at h
          rw [if_pos (by simp [pyTruthy, hrem])] at h
          obtain ⟨hst, htr⟩ := Prod.mk.injEq _ _ _ _ |>.mp (Option.some.inj h)
          constructor
          · rw [← htr]
            simp only [true_iff]
            exact ⟨b, rfl, hpre, hrem⟩
          · intro _
            refine ⟨by rw [← htr], b, rfl, ?_⟩
            rw [← hst, ← hs]
      · rw [if_neg hpre] at hrb
        obtain ⟨hl, hs⟩ := Prod.mk.injEq _ _ _ _ |>.mp hrb
        rw [← hl] at h
        rw [if_neg (by simp [pyTruthy])] at h
        split at h
        · exact absurd h (by simp)
        split at h
        · exact absurd h (by simp)
        · have htr := (Prod.mk.injEq _ _ _ _ |>.mp (Option.some.inj h)).2
          rw [← htr]
          refine ⟨⟨fun hf => absurd hf (by simp), fun hex => ?_⟩,
            fun hf => absurd hf (by simp)⟩
          obtain ⟨b', hb', hpre', -⟩ := hex
          cases Option.some.inj hb'
          exact absurd hpre' hpre

/-- Witness for C6's theorem on the locked branch `branch/20.08`: the
hypotheses evaluate, the short-circuit is taken and the catalog flag is
down. -/
theorem branch_lock_shortcircuit_iff_witness :
    (pyTruthy mWithAddExtension.runtime ∨ pyTruthy mWithAddExtension.base) ∧
    RuntimeChecker_check envLockedBranch 9 mWithAddExtension RemoteArg.defaultEmpty
        = some ({ initCheckState mWithAddExtension with
                  cannotUpdateReason := some [some branchLockMessage, some "branch/20.08"] },
                ⟨true, false⟩) ∧
    (⟨true, false⟩ : CheckTrace).branchLockReturn = true ∧
    (⟨true, false⟩ : CheckTrace).fetchedCatalog = false :=
  have h : RuntimeChecker_check envLockedBranch 9 mWithAddExtension RemoteArg.defaultEmpty
      = some ({ initCheckState mWithAddExtension with
                cannotUpdateReason := some [some branchLockMessage, some "branch/20.08"] },
              ⟨true, false⟩) := by decide
  ⟨Or.inl (by decide), h,
   (branch_lock_shortcircuit_iff envLockedBranch 9 mWithAddExtension RemoteArg.defaultEmpty
       _ _ (Or.inl (by decide)) h).1.mpr ⟨"branch/20.08", rfl, by decide, by decide⟩,
   ((branch_lock_shortcircuit_iff envLockedBranch 9 mWithAddExtension RemoteArg.defaultEmpty
       _ _ (Or.inl (by decide)) h).2 rfl).1⟩
